import Mathlib

/-!
# getopt: argument-vector scanning and permutation

A shallow embedding of `lib/posix/c_lib_ext/getopt/getopt.c`
(`gcd`, `permute_args`, `parse_long_options`, `getopt_internal`, `getopt_long`,
`getopt_long_only`, `getopt_r`) together with theorems about it.

Conventions of the embedding.

* A C string is the list of its characters before the terminating NUL; reading at or
  past the end of the list yields NUL.
* A `char *` into a string is the string together with an offset (`CharPtr`).
* `int` values are unbounded integers: every index handled here is bounded by the
  length of the argument vector, so no arithmetic wraps.
* `nargc` is the length of `nargv`; `nargv[nargc]` is the null pointer.
* Undefined behaviour (division by zero, reading a vector slot that does not exist,
  dereferencing a null pointer, reading a variable to which nothing has been assigned)
  is the result `none`.
* Diagnostics (`LOG_WRN`, `LOG_DBG`) only write to the log and take no part in the
  control flow; they are left out.
* `optind`, `optopt`, `optarg`, the file-level scan pointer `place` that `getopt_r`
  uses, and the caller memory reached through `flag` and `idx` pointers are fields of
  `State`.
* The automatic variables `place`, `nonopt_start` and `nonopt_end` of `getopt_internal`
  (its `place` hides the file-level one) hold no value until the function assigns one
  and do not outlive the call.  They are `Option` values: `none` is the indeterminate
  value of a variable that has not been assigned, and reading it is undefined behaviour.
* Whether plain `char` is signed is left to the build: the functions that convert a
  character to `int` take `char_signed` as their first argument.
-/

namespace Getopt

/-- A C string: the characters that precede the terminating NUL. -/
abbrev CString := List Char

/-- The NUL character. -/
def NUL : Char := Char.ofNat 0

/-- A pointer into a C string: the string and the offset of the pointed character. -/
structure CharPtr where
  str : CString
  off : Nat
  deriving DecidableEq, Repr

namespace CharPtr

/-- The character pointed to, `*p`; NUL at the end of the string. -/
def deref (p : CharPtr) : Char := p.str.getD p.off NUL

/-- The character `p[k]`. -/
def nth (p : CharPtr) (k : Nat) : Char := p.str.getD (p.off + k) NUL

/-- The pointer `p + 1`. -/
def inc (p : CharPtr) : CharPtr := ⟨p.str, p.off + 1⟩

/-- The C string that starts at `p`. -/
def rest (p : CharPtr) : CString := p.str.drop p.off

end CharPtr

/-- The empty string `EMSG`. -/
def EMSG : CharPtr := ⟨[], 0⟩

/-- The slot `nargv[i]`; `none` is the null pointer at `nargv[nargc]` and any slot that
does not exist. -/
def argv_at (nargv : List CString) (i : Int) : Option CString :=
  if 0 ≤ i then nargv[i.toNat]? else none

/-- The C library `strchr(s, c)`, as the offset of the first `c` in `s`; the terminating
NUL counts as part of the string. -/
def strchr (s : CString) (c : Char) : Option Nat :=
  if c = NUL ∨ s.indexOf c < s.length then some (s.indexOf c) else none

/-- The test `strncmp(s1, s2, n) == 0` of the C library. -/
def strncmp_zero : CString → CString → Nat → Bool
  | _, _, 0 => true
  | [], [], _ + 1 => true
  | a :: s1, b :: s2, n + 1 => a = b && strncmp_zero s1 s2 n
  | [], _ :: _, _ + 1 => false
  | _ :: _, [], _ + 1 => false

def FLAG_PERMUTE : Nat := 1
def FLAG_ALLARGS : Nat := 2
def FLAG_LONGONLY : Nat := 4

def BADCH : Int := ('?'.toNat : Int)
def INORDER : Int := 1

/-- The macro `BADARG` of the long-option part: `':'` when `options` begins with `':'`,
otherwise `'?'`. -/
def BADARG (options : CString) : Int :=
  if options.getD 0 NUL = ':' then (':'.toNat : Int) else ('?'.toNat : Int)

/-- The conversion `(int)c` of a plain `char` that holds the byte with code `c.toNat`:
where plain `char` is signed (`char_signed = true`) the bytes from `0x80` on are
negative. -/
def char_to_int (char_signed : Bool) (c : Char) : Int :=
  if char_signed ∧ 128 ≤ c.toNat then (c.toNat : Int) - 256 else (c.toNat : Int)

/-! ## gcd and permute_args -/

/-- The `while (c != 0)` loop of `gcd`, on the variables `b` and `c` (`a` is only ever a
copy of the previous `b`). -/
def gcd_loop : Nat → Int → Int → Option Int
  | 0, _, _ => none
  | fuel + 1, b, c => if c ≠ 0 then gcd_loop fuel c (b.tmod c) else some b

/-- The function `gcd`: `a % b` with `b = 0` is undefined. -/
def gcd (a b : Int) : Option Int :=
  if b = 0 then none else gcd_loop (b.natAbs + 1) b (a.tmod b)

/-- The three assignments that exchange `nargv[pos]` and `nargv[cstart]`. -/
def swap_args (nargv : List CString) (pos cstart : Int) : Option (List CString) :=
  match argv_at nargv pos, argv_at nargv cstart with
  | some swap, some x => some ((nargv.set pos.toNat x).set cstart.toNat swap)
  | _, _ => none

/-- The inner loop `for (j = 0; j < cyclelen; j++)` of `permute_args`; the first
argument counts the iterations that remain. -/
def permute_cycle (panonopt_end nnonopts nopts cstart : Int) :
    Nat → Int → List CString → Option (List CString)
  | 0, _, nargv => some nargv
  | j + 1, pos, nargv =>
    let pos := if pos ≥ panonopt_end then pos - nnonopts else pos + nopts
    match swap_args nargv pos cstart with
    | none => none
    | some nargv => permute_cycle panonopt_end nnonopts nopts cstart j pos nargv

/-- The outer loop `for (i = 0; i < ncycle; i++)` of `permute_args`; the first argument
counts the iterations that remain. -/
def permute_cycles (panonopt_end nnonopts nopts cyclelen : Int) :
    Nat → Int → List CString → Option (List CString)
  | 0, _, nargv => some nargv
  | k + 1, i, nargv =>
    let cstart := panonopt_end + i
    match permute_cycle panonopt_end nnonopts nopts cstart cyclelen.toNat cstart nargv with
    | none => none
    | some nargv => permute_cycles panonopt_end nnonopts nopts cyclelen k (i + 1) nargv

/-- The function `permute_args`. -/
def permute_args (panonopt_start panonopt_end opt_end : Int) (nargv : List CString) :
    Option (List CString) :=
  let nnonopts := panonopt_end - panonopt_start
  let nopts := opt_end - panonopt_end
  match gcd nnonopts nopts with
  | none => none
  | some ncycle =>
    if ncycle = 0 then none
    else
      let cyclelen := (opt_end - panonopt_start).tdiv ncycle
      permute_cycles panonopt_end nnonopts nopts cyclelen ncycle.toNat 0 nargv

/-! ## Scan state and long-option descriptors -/

/-- The `struct option` of `getopt.h`.  A `flag` pointer is the address of an `int` in
caller memory, or `none` for the null pointer. -/
structure option where
  name : CString
  has_arg : Int
  flag : Option Nat
  val : Int
  deriving DecidableEq, Repr

/-- Modelled from the spec: the constant `no_argument` ("argument-requirement: none"),
whose definition is not part of the header in this repository. -/
def no_argument : Int := 0

/-- Modelled from the spec: the constant `required_argument` ("argument-requirement:
required"), whose definition is not part of the header in this repository. -/
def required_argument : Int := 1

/-- Modelled from the spec: the constant `optional_argument` ("argument-requirement:
optional"), whose definition is not part of the header in this repository. -/
def optional_argument : Int := 2

/-- Caller memory holding `int` objects: the stores made so far, latest first. -/
abbrev IntMem := List (Nat × Int)

/-- The store `*p = v`. -/
def IntMem.store (m : IntMem) (p : Nat) (v : Int) : IntMem := (p, v) :: m

/-- The value of `*p`, when something was stored there. -/
def IntMem.load (m : IntMem) (p : Nat) : Option Int := (m.find? (fun c => c.1 = p)).map Prod.snd

/-- The argument vector, the variables `optind`, `optopt`, `optarg`, the file-level scan
pointer `place` of `getopt_r`, and caller memory. -/
structure State where
  nargv : List CString
  optind : Int
  optopt : Int
  optarg : Option CString
  place : CharPtr
  mem : IntMem
  deriving DecidableEq, Repr

/-- The argument count `nargc`. -/
def State.nargc (st : State) : Int := (st.nargv.length : Int)

/-- The state in which a parse session starts: `optind = 1` and the file-level
`place = EMSG`, as the file initialises them. -/
def State.fresh (nargv : List CString) : State :=
  { nargv := nargv, optind := 1, optopt := 0, optarg := none, place := EMSG, mem := [] }

/-! ## parse_long_options -/

/-- The loop `for (i = 0; long_options[i].name; i++)` of `parse_long_options` over the
entries from index `i` on; the result is `(match, exact_match, second_partial_match)`. -/
def parse_long_options_scan (current_argv : CString) (current_argv_len : Nat)
    (long_options : List option) (short_too : Bool) (flags : Nat) :
    List option → Nat → Int → Bool → Int × Bool × Bool
  | [], _, mtch, second_partial_match => (mtch, false, second_partial_match)
  | o :: rest, i, mtch, second_partial_match =>
    if !strncmp_zero current_argv o.name current_argv_len then
      parse_long_options_scan current_argv current_argv_len long_options short_too flags
        rest (i + 1) mtch second_partial_match
    else if o.name.length = current_argv_len then
      ((i : Int), true, second_partial_match)
    else if short_too ∧ current_argv_len = 1 then
      parse_long_options_scan current_argv current_argv_len long_options short_too flags
        rest (i + 1) mtch second_partial_match
    else if mtch = -1 then
      parse_long_options_scan current_argv current_argv_len long_options short_too flags
        rest (i + 1) (i : Int) second_partial_match
    else
      let m := long_options.getD mtch.toNat o
      if flags &&& FLAG_LONGONLY ≠ 0 ∨ o.has_arg ≠ m.has_arg ∨ o.flag ≠ m.flag
          ∨ o.val ≠ m.val then
        parse_long_options_scan current_argv current_argv_len long_options short_too flags
          rest (i + 1) mtch true
      else
        parse_long_options_scan current_argv current_argv_len long_options short_too flags
          rest (i + 1) mtch second_partial_match

/-- The length `current_argv_len` of the candidate name: up to the first `'='`, or the
whole of `current_argv`. -/
def candidate_len (current_argv : CString) : Nat :=
  match strchr current_argv '=' with
  | some k => k
  | none => current_argv.length

/-- The pointer `has_equal` after `has_equal++`: the string behind the first `'='` of
`current_argv`, or `none` (null) when there is no `'='`. -/
def attached_value (current_argv : CString) : Option CString :=
  (strchr current_argv '=').map (fun k => current_argv.drop (k + 1))

/-- The test `!exact_match && second_partial_match` ("ambiguous abbreviation") on the
result of the matching loop. -/
def ambiguous_abbreviation (r : Int × Bool × Bool) : Bool := !r.2.1 && r.2.2

/-- The part of `parse_long_options` that handles a found option (`match != -1`), for
the entry `o = long_options[match]`, up to the final stores through `idx` and `flag` and
the return; `st.optind` has already been incremented. -/
def parse_long_options_found (options : CString) (idx : Option Nat)
    (has_equal : Option CString) (mtch : Int) (o : option) (st : State) :
    Option (Int × State) :=
  if o.has_arg = no_argument ∧ has_equal.isSome then
    some (BADCH, { st with optopt := if o.flag = none then o.val else 0 })
  else
    let st : State :=
      if o.has_arg = required_argument ∨ o.has_arg = optional_argument then
        if has_equal.isSome then { st with optarg := has_equal }
        else if o.has_arg = required_argument then
          { st with optarg := argv_at st.nargv st.optind, optind := st.optind + 1 }
        else st
      else st
    if o.has_arg = required_argument ∧ st.optarg = none then
      some (BADARG options,
        { st with optopt := (if o.flag = none then o.val else 0), optind := st.optind - 1 })
    else
      let st : State := match idx with
        | some p => { st with mem := st.mem.store p mtch }
        | none => st
      match o.flag with
      | some p => some (0, { st with mem := st.mem.store p o.val })
      | none => some (o.val, st)

/-- The function `parse_long_options`. -/
def parse_long_options (options : CString) (long_options : List option) (idx : Option Nat)
    (short_too : Bool) (flags : Nat) (st : State) : Option (Int × State) :=
  match argv_at st.nargv st.optind with
  | none => none
  | some current_argv =>
    let st : State := { st with optind := st.optind + 1 }
    let has_equal := attached_value current_argv
    let current_argv_len := candidate_len current_argv
    let r := parse_long_options_scan current_argv current_argv_len long_options short_too flags
      long_options 0 (-1) false
    if ambiguous_abbreviation r then
      some (BADCH, { st with optopt := 0 })
    else if r.1 ≠ -1 then
      match long_options[r.1.toNat]? with
      | none => none
      | some o => parse_long_options_found options idx has_equal r.1 o st
    else if short_too then
      some (-1, { st with optind := st.optind - 1 })
    else
      some (BADCH, { st with optopt := 0 })

/-! ## getopt_internal -/

/-- The short-option matching of `getopt_internal`, from `optchar = (int)*(place)++` to
the end of the function; `place` is the value of the automatic scan pointer, which
stands on the option character.  The stores `place = EMSG` in front of a `return` are
left out: the variable ends with the call. -/
def getopt_internal_short (char_signed : Bool) (options : CString)
    (long_options : Option (List option)) (idx : Option Nat) (flags : Nat)
    (place : CharPtr) (st : State) : Option (Int × State) :=
  let optchar := place.deref
  let place := place.inc
  let oli := strchr options optchar
  match oli with
  | none =>
    if optchar = '-' ∧ place.deref = NUL then some (-1, st)
    else
      let st : State := { st with optind := if place.deref = NUL then st.optind + 1 else st.optind }
      some (BADCH, { st with optopt := char_to_int char_signed optchar })
  | some oli =>
    if optchar = ':' ∨ (optchar = '-' ∧ place.deref ≠ NUL) then
      if optchar = '-' ∧ place.deref = NUL then some (-1, st)
      else
        let st : State := { st with optind := if place.deref = NUL then st.optind + 1 else st.optind }
        some (BADCH, { st with optopt := char_to_int char_signed optchar })
    else if long_options.isSome ∧ optchar = 'W' ∧ options.getD (oli + 1) NUL = ';' then
      -- -W long-option
      if place.deref ≠ NUL then
        -- no space
        parse_long_options options (long_options.getD []) idx false flags st
      else if st.optind + 1 ≥ st.nargc then
        -- no arg
        some (BADARG options,
          { st with optind := st.optind + 1, optopt := char_to_int char_signed optchar })
      else
        -- white space: `place = nargv[optind]`
        parse_long_options options (long_options.getD []) idx false flags
          { st with optind := st.optind + 1 }
    else if options.getD (oli + 1) NUL ≠ ':' then
      -- doesn't take argument
      some (char_to_int char_signed optchar,
        { st with optind := if place.deref = NUL then st.optind + 1 else st.optind })
    else
      -- takes (optional) argument
      let st : State := { st with optarg := none }
      if place.deref ≠ NUL then
        some (char_to_int char_signed optchar,
          { st with optarg := some place.rest, optind := st.optind + 1 })
      else if options.getD (oli + 2) NUL ≠ ':' then
        if st.optind + 1 ≥ st.nargc then
          some (BADARG options,
            { st with optind := st.optind + 1, optopt := char_to_int char_signed optchar })
        else
          some (char_to_int char_signed optchar,
            { st with optarg := argv_at st.nargv (st.optind + 1), optind := st.optind + 1 + 1 })
      else
        some (char_to_int char_signed optchar, { st with optind := st.optind + 1 })

/-- The part of `getopt_internal` behind the block at the label `start`: the long-option
check, then the short-option matching; `place` is the value of the automatic scan
pointer.  The test `place != nargv[optind]` compares the pointer with the start of the
token at `optind`. -/
def getopt_internal_option (char_signed : Bool) (options : CString)
    (long_options : Option (List option)) (idx : Option Nat) (flags : Nat)
    (place : CharPtr) (st : State) : Option (Int × State) :=
  match long_options with
  | some lopts =>
    if ¬ (place.off = 0 ∧ argv_at st.nargv st.optind = some place.str)
        ∧ (place.deref = '-' ∨ flags &&& FLAG_LONGONLY ≠ 0) then
      let short_too : Bool :=
        if place.deref = '-' then false
        else if place.deref ≠ ':' ∧ (strchr options place.deref).isSome then true
        else false
      let place : CharPtr := if place.deref = '-' then place.inc else place
      match parse_long_options options lopts idx short_too flags st with
      | none => none
      | some (optchar, st) =>
        if optchar ≠ -1 then some (optchar, st)
        else getopt_internal_short char_signed options long_options idx flags place st
    else getopt_internal_short char_signed options long_options idx flags place st
  | none => getopt_internal_short char_signed options long_options idx flags place st

/-- The function `getopt_internal` from the label `start` on, with the `goto start` as the
recursive call; the first argument bounds the number of passes through the label.
`place`, `nonopt_start` and `nonopt_end` are the automatic variables of the function:
`none` is the indeterminate value of a variable that has not been assigned, and reading
it is undefined. -/
def getopt_internal_start (char_signed : Bool) (options : CString)
    (long_options : Option (List option)) (idx : Option Nat) (flags : Nat) :
    Nat → Option CharPtr → Option Int → Option Int → State → Option (Int × State)
  | 0, _, _, _, _ => none
  | fuel + 1, place, nonopt_start, nonopt_end, st =>
    match place with
    | none => none
    | some place =>
      if place.deref = NUL then
        -- update scanning pointer
        if st.optind ≥ st.nargc then
          -- end of argument vector
          match nonopt_end with
          | none => none
          | some ne =>
            if ne ≠ -1 then
              match nonopt_start with
              | none => none
              | some ns =>
                match permute_args ns ne st.optind st.nargv with
                | none => none
                | some nargv =>
                  some (-1, { st with nargv := nargv, optind := st.optind - (ne - ns) })
            else
              match nonopt_start with
              | none => none
              | some ns =>
                if ns ≠ -1 then some (-1, { st with optind := ns }) else some (-1, st)
        else
          match argv_at st.nargv st.optind with
          | none => none
          | some tok =>
            let place : CharPtr := ⟨tok, 0⟩
            if place.deref ≠ '-' ∨ place.nth 1 = NUL then
              -- found non-option
              if flags &&& FLAG_ALLARGS ≠ 0 then
                some (INORDER,
                  { st with optarg := argv_at st.nargv st.optind, optind := st.optind + 1 })
              else if flags &&& FLAG_PERMUTE = 0 then
                some (-1, st)
              else
                match nonopt_start with
                | none => none
                | some ns =>
                  if ns = -1 then
                    getopt_internal_start char_signed options long_options idx flags fuel
                      (some EMSG) (some st.optind) nonopt_end
                      { st with optind := st.optind + 1 }
                  else
                    match nonopt_end with
                    | none => none
                    | some ne =>
                      if ne ≠ -1 then
                        match permute_args ns ne st.optind st.nargv with
                        | none => none
                        | some nargv =>
                          getopt_internal_start char_signed options long_options idx flags fuel
                            (some EMSG) (some (st.optind - (ne - ns))) (some (-1))
                            { st with nargv := nargv, optind := st.optind + 1 }
                      else
                        getopt_internal_start char_signed options long_options idx flags fuel
                          (some EMSG) (some ns) (some ne) { st with optind := st.optind + 1 }
            else
              -- `if (nonopt_start != -1 && nonopt_end == -1) nonopt_end = optind;`
              match nonopt_start with
              | none => none
              | some ns =>
                let assigned : Option (Option Int) :=
                  if ns ≠ -1 then
                    match nonopt_end with
                    | none => none
                    | some ne => some (some (if ne = -1 then st.optind else ne))
                  else some nonopt_end
                match assigned with
                | none => none
                | some nonopt_end =>
                  -- `place[1] != 0 && *++(place) == '-' && place[1] == 0`
                  let first := place.nth 1 ≠ NUL
                  let place : CharPtr := if first then place.inc else place
                  if first ∧ place.deref = '-' ∧ place.nth 1 = NUL then
                    -- "--": `optind++`
                    match nonopt_end with
                    | none => none
                    | some ne =>
                      if ne ≠ -1 then
                        match permute_args ns ne (st.optind + 1) st.nargv with
                        | none => none
                        | some nargv =>
                          some (-1, { st with nargv := nargv,
                                              optind := st.optind + 1 - (ne - ns) })
                      else
                        some (-1, { st with optind := st.optind + 1 })
                  else
                    getopt_internal_option char_signed options long_options idx flags place st
      else getopt_internal_option char_signed options long_options idx flags place st

/-- The flags of `getopt_internal` after the leading character of `options` is looked at:
a `'-'` sets `FLAG_ALLARGS`, a `'+'` clears `FLAG_PERMUTE`.  `flags` is a set of the bits
`FLAG_PERMUTE`, `FLAG_ALLARGS`, `FLAG_LONGONLY`; `flags &= ~FLAG_PERMUTE` is written with
exclusive or. -/
def mode_flags (options : CString) (flags : Nat) : Nat :=
  if options.getD 0 NUL = '-' then flags ||| FLAG_ALLARGS
  else if options.getD 0 NUL = '+' then flags ^^^ (flags &&& FLAG_PERMUTE)
  else flags

/-- The option string of `getopt_internal` after `options++` skipped a leading `'+'` or
`'-'`. -/
def mode_options (options : CString) : CString :=
  if options.getD 0 NUL = '+' ∨ options.getD 0 NUL = '-' then options.drop 1 else options

/-- The function `getopt_internal`.  `options = none` is the null pointer.  On the way
to the label `start` the function turns `optind == 0` into `1`, clears `optarg`, and
assigns `-1` to `nonopt_start` and `nonopt_end` when `optind == 1`; its scan pointer
`place`, which hides the file-level `place`, is not assigned before `start`, and the
two bounds are not assigned when `optind` is not 1. -/
def getopt_internal (char_signed : Bool) (options : Option CString)
    (long_options : Option (List option)) (idx : Option Nat) (flags : Nat) (st : State) :
    Option (Int × State) :=
  match options with
  | none => some (-1, st)
  | some options =>
    let st : State := { st with optind := if st.optind = 0 then 1 else st.optind, optarg := none }
    let nonopt : Option Int := if st.optind = 1 then some (-1) else none
    getopt_internal_start char_signed (mode_options options) long_options idx
      (mode_flags options flags) ((st.nargc - st.optind).toNat + 2) none nonopt nonopt st

/-- The function `getopt_long`. -/
def getopt_long (char_signed : Bool) (options : Option CString)
    (long_options : Option (List option)) (idx : Option Nat) (st : State) :
    Option (Int × State) :=
  getopt_internal char_signed options long_options idx FLAG_PERMUTE st

/-- The function `getopt_long_only`. -/
def getopt_long_only (char_signed : Bool) (options : Option CString)
    (long_options : Option (List option)) (idx : Option Nat) (st : State) :
    Option (Int × State) :=
  getopt_internal char_signed options long_options idx (FLAG_PERMUTE ||| FLAG_LONGONLY) st

/-! ## getopt_r -/

/-- The macro `BADARG` as defined for `getopt_r`: `(int)':'`. -/
def BADARG_r : Int := (':'.toNat : Int)

/-- The part of `getopt_r` from "See if option letter is one the caller wanted" to the
end, on the option character `optopt` just read and the scan pointer `st.place` behind
it; `*optopt` holds `(int)optopt`. -/
def getopt_r_letter (char_signed : Bool) (ostr : CString) (optopt : Char) (st : State) :
    Option (Int × State) :=
  let st : State := { st with optopt := char_to_int char_signed optopt }
  match (if optopt = ':' then none else strchr ostr optopt) with
  | none =>
    let st : State := { st with optind := if st.place.deref = NUL then st.optind + 1 else st.optind }
    some (BADCH, st)
  | some oli =>
    if ostr.getD (oli + 1) NUL ≠ ':' then
      -- don't need argument
      let st : State := { st with optarg := none }
      let st : State := { st with optind := if st.place.deref = NUL then st.optind + 1 else st.optind }
      some (char_to_int char_signed optopt, st)
    else if st.place.deref ≠ NUL then
      some (char_to_int char_signed optopt,
        { st with optarg := some st.place.rest, place := EMSG, optind := st.optind + 1 })
    else if st.nargc > st.optind + 1 then
      some (char_to_int char_signed optopt,
        { st with optarg := argv_at st.nargv (st.optind + 1), place := EMSG,
                  optind := st.optind + 1 + 1 })
    else
      -- option-argument absent
      let st : State := { st with optind := st.optind + 1, place := EMSG }
      if ostr.getD 0 NUL = ':' then some (BADARG_r, st) else some (BADCH, st)

/-- The function `getopt_r`.  Its scan pointer is the file-level variable `place`, kept
in `st.place`; `*optarg`, `*optind`, `*optopt` are the fields of `st`. -/
def getopt_r (char_signed : Bool) (ostr : CString) (st : State) : Option (Int × State) :=
  if st.optind ≥ st.nargc then some (-1, st)
  else if st.optind = 1 ∨ st.place.deref = NUL then
    -- update scanning pointer
    match argv_at st.nargv st.optind with
    | none => none
    | some tok =>
      let st : State := { st with place := ⟨tok, 0⟩ }
      if st.place.deref ≠ '-' then
        -- Argument is absent or is not an option
        some (-1, { st with place := EMSG })
      else
        let st : State := { st with place := st.place.inc }
        let optopt := st.place.deref
        let st : State := { st with optopt := char_to_int char_signed optopt, place := st.place.inc }
        if optopt = '-' ∧ st.place.deref = NUL then
          -- "--" => end of options
          some (-1, { st with optind := st.optind + 1, place := EMSG })
        else if optopt = NUL then
          -- Solitary '-'
          let st : State := { st with place := EMSG }
          if strchr ostr '-' = none then some (-1, st)
          else getopt_r_letter char_signed ostr '-' st
        else getopt_r_letter char_signed ostr optopt st
  else
    getopt_r_letter char_signed ostr st.place.deref { st with place := st.place.inc }

/-! ## Repeated calls -/

/-- A caller that calls `f` again and again on the state left by the previous call
until a call returns `-1`: the return value and `optarg` of every call made, in order,
and the state left by the last call.  The first argument bounds the number of calls. -/
def call_until_end (f : State → Option (Int × State)) :
    Nat → State → Option (List (Int × Option CString) × State)
  | 0, _ => none
  | n + 1, st =>
    match f st with
    | none => none
    | some (r, st1) =>
      if r = -1 then some ([(r, st1.optarg)], st1)
      else (call_until_end f n st1).map (fun p => ((r, st1.optarg) :: p.1, p.2))

/-- The argument vector made of the given tokens. -/
def argv (l : List String) : List CString := l.map String.toList

/-- The position that the cycle starting at `panonopt_end + i` reaches after `t` steps, for
a span that starts at `s` and has blocks of `a` and `b` elements. -/
def cycle_pos (s a b i t : Nat) : Nat := s + (a + i + t * b) % (a + b)

/-- The index whose element ends up at index `k` when the blocks `[s,m)` and `[m,e)` are
exchanged. -/
def rotate_src (s m e k : Nat) : Nat :=
  if s ≤ k ∧ k < e then (if k < s + (e - m) then k + (m - s) else k - (e - m)) else k

/-- The index pairs `(pos, cstart)` of the swaps made by the inner loop
`for (j = 0; j < cyclelen; j++)` of `permute_args`, in order; the indices do not depend
on the contents of the vector. -/
def permute_cycle_swaps (panonopt_end nnonopts nopts cstart : Int) :
    Nat → Int → List (Int × Int)
  | 0, _ => []
  | j + 1, pos =>
    let pos := if pos ≥ panonopt_end then pos - nnonopts else pos + nopts
    (pos, cstart) :: permute_cycle_swaps panonopt_end nnonopts nopts cstart j pos

/-- The index pairs of the swaps made by the outer loop
`for (i = 0; i < ncycle; i++)` of `permute_args`, in order. -/
def permute_cycles_swaps (panonopt_end nnonopts nopts cyclelen : Int) :
    Nat → Int → List (Int × Int)
  | 0, _ => []
  | k + 1, i =>
    let cstart := panonopt_end + i
    permute_cycle_swaps panonopt_end nnonopts nopts cstart cyclelen.toNat cstart
      ++ permute_cycles_swaps panonopt_end nnonopts nopts cyclelen k (i + 1)

/-- The index pairs `(pos, cstart)` of all swaps that `permute_args` makes, in order:
the same computation of `ncycle` and `cyclelen` and the same two loops as
`permute_args`, with the vector left out. -/
def permute_args_swaps (panonopt_start panonopt_end opt_end : Int) :
    Option (List (Int × Int)) :=
  let nnonopts := panonopt_end - panonopt_start
  let nopts := opt_end - panonopt_end
  match gcd nnonopts nopts with
  | none => none
  | some ncycle =>
    if ncycle = 0 then none
    else
      let cyclelen := (opt_end - panonopt_start).tdiv ncycle
      some (permute_cycles_swaps panonopt_end nnonopts nopts cyclelen ncycle.toNat 0)

/-- The swaps of a list of index pairs made one after the other on a vector. -/
def apply_swaps : List (Int × Int) → List CString → Option (List CString)
  | [], nargv => some nargv
  | p :: l, nargv =>
    match swap_args nargv p.1 p.2 with
    | none => none
    | some nargv => apply_swaps l nargv

/-! ## Theorems -/

/-- Every call of `getopt_internal` with a non-null option string is undefined: at the
label `start` the test `!*(place)` reads the automatic variable `place`, to which nothing
has been assigned. -/
theorem getopt_internal_reads_unassigned_place (char_signed : Bool) (options : CString)
    (long_options : Option (List option)) (idx : Option Nat) (flags : Nat) (st : State) :
    getopt_internal char_signed (some options) long_options idx flags st = none := by
  simp only [getopt_internal, getopt_internal_start]

/-- C2: on `["prog","-a","file1","-b","val","file2"]` with the short spec `"ab:"`, no long
options and the permute flag, the first call of `getopt_internal` is undefined: it reads
its scan pointer `place` before anything is assigned to it, so it does not return `'a'`. -/
theorem getopt_internal_scenario_ab_undefined (char_signed : Bool) :
    getopt_internal char_signed (some "ab:".toList) none none FLAG_PERMUTE
        (State.fresh (argv ["prog", "-a", "file1", "-b", "val", "file2"]))
      = none :=
  getopt_internal_reads_unassigned_place char_signed _ _ _ _ _

/-- C4: on `["prog","-ab"]` with the spec `"ab"`, the first call of `getopt_r` from
`optind = 1` returns `'a'` and leaves `optind = 1`, and the call after it returns `'a'`
again and leaves the very same state: the letter `b` is never returned and `-1` is never
reached. -/
theorem getopt_r_bundle_repeats_first_letter (char_signed : Bool) :
    getopt_r char_signed "ab".toList (State.fresh (argv ["prog", "-ab"]))
      = some (('a'.toNat : Int),
          { State.fresh (argv ["prog", "-ab"]) with
            optopt := ('a'.toNat : Int), place := ⟨"-ab".toList, 2⟩ })
    ∧ getopt_r char_signed "ab".toList
        { State.fresh (argv ["prog", "-ab"]) with
          optopt := ('a'.toNat : Int), place := ⟨"-ab".toList, 2⟩ }
      = some (('a'.toNat : Int),
          { State.fresh (argv ["prog", "-ab"]) with
            optopt := ('a'.toNat : Int), place := ⟨"-ab".toList, 2⟩ }) := by
  cases char_signed <;> decide

/-- C7: on `["prog","--n=x"]` with a table whose only entry is named `n`, takes a
required argument, has a null flag and the value `'v'`, the resolver
`parse_long_options`, called as `getopt_internal` calls it for a token that starts with
`--` (`short_too` clear, `optind` at the token), returns `'?'` with `optopt = 0`, a null
`optarg` and `optind = 2`: it compares the table names with the whole token `--n=x`,
dashes included.  The call of `getopt_long` itself is undefined before it gets there,
so it does not return `'v'` either. -/
theorem getopt_long_dashes_not_stripped :
    (parse_long_options "".toList
        [{ name := "n".toList, has_arg := required_argument, flag := none,
           val := ('v'.toNat : Int) }]
        none false FLAG_PERMUTE (State.fresh (argv ["prog", "--n=x"]))).map
      (fun r => (r.1, r.2.optopt, r.2.optarg, r.2.optind))
    = some (('?'.toNat : Int), 0, none, 2)
    ∧ ∀ char_signed, getopt_long char_signed (some "".toList)
        (some [{ name := "n".toList, has_arg := required_argument, flag := none,
                 val := ('v'.toNat : Int) }])
        none (State.fresh (argv ["prog", "--n=x"])) = none := by
  refine ⟨by decide, fun cs => ?_⟩
  exact getopt_internal_reads_unassigned_place cs _ _ _ _ _

/-- C3: on `["prog","f1","-a"]` with the short spec `"a"`, no long options and the permute
flag, the first call of `getopt_internal` is undefined (it reads its unassigned scan
pointer): no call returns, and the vector is not brought into the order `-a`, `f1`. -/
theorem getopt_internal_full_scan_undefined (char_signed : Bool) :
    getopt_internal char_signed (some "a".toList) none none FLAG_PERMUTE
        (State.fresh (argv ["prog", "f1", "-a"]))
      = none :=
  getopt_internal_reads_unassigned_place char_signed _ _ _ _ _

/-- C5: on `["prog","-a"]` with the short spec `"a:"`, the call of `getopt_internal` is
undefined (it reads its unassigned scan pointer): it does not return the error for a
missing argument. -/
theorem getopt_internal_short_option_argument_undefined (char_signed : Bool) :
    getopt_internal char_signed (some "a:".toList) none none FLAG_PERMUTE
        (State.fresh (argv ["prog", "-a"]))
      = none :=
  getopt_internal_reads_unassigned_place char_signed _ _ _ _ _

/-- C6: on `["prog","-z"]` with the short spec `"a"`, the call of `getopt_internal` is
undefined (it reads its unassigned scan pointer): it does not return `'?'` with
`optopt = 'z'`. -/
theorem getopt_internal_unknown_option_char_undefined (char_signed : Bool) :
    getopt_internal char_signed (some "a".toList) none none FLAG_PERMUTE
        (State.fresh (argv ["prog", "-z"]))
      = none :=
  getopt_internal_reads_unassigned_place char_signed _ _ _ _ _

/-- `strncmp(s, t, n) == 0` says that the first `n` characters of `s` and `t` agree. -/
theorem strncmp_zero_iff (s t : CString) (n : Nat) :
    strncmp_zero s t n = true ↔ s.take n = t.take n := by
  induction n generalizing s t with
  | zero => simp [strncmp_zero]
  | succ n ih =>
    cases s with
    | nil => cases t <;> simp [strncmp_zero]
    | cons a s =>
      cases t with
      | nil => simp [strncmp_zero]
      | cons b t => simp [strncmp_zero, ih]

/-- The candidate name is not longer than the token. -/
theorem candidate_len_le (tok : CString) : candidate_len tok ≤ tok.length := by
  unfold candidate_len strchr
  split
  · rename_i k h
    split at h
    · rename_i hc
      have hne : ¬ ('=' = NUL) := by decide
      simp only [hne, false_or] at hc
      simp only [Option.some.injEq] at h
      omega
    · simp at h
  · exact le_refl _

/-- `has_equal` is non-null exactly when the token contains `'='`. -/
theorem attached_value_isSome (tok : CString) :
    (attached_value tok).isSome = true ↔ '=' ∈ tok := by
  have hne : ¬ ('=' = NUL) := by decide
  unfold attached_value strchr
  simp only [hne, false_or, List.indexOf_lt_length]
  split <;> simp [*]

/-- The two tests of an exact match say that the name is the candidate name. -/
theorem exact_iff (tok : CString) (name : CString) :
    (strncmp_zero tok name (candidate_len tok) = true ∧ name.length = candidate_len tok)
      ↔ name = tok.take (candidate_len tok) := by
  rw [strncmp_zero_iff]
  constructor
  · rintro ⟨h1, h2⟩
    rw [h1, ← h2, List.take_length]
  · intro h
    have hl : name.length = candidate_len tok := by
      rw [h, List.length_take]; exact min_eq_left (candidate_len_le tok)
    refine ⟨?_, hl⟩
    rw [← hl, List.take_length, hl]; exact h.symm

/-- The `strncmp` test of the loop says that the candidate name is a prefix of the name. -/
theorem partial_iff (tok : CString) (name : CString) :
    strncmp_zero tok name (candidate_len tok) = true
      ↔ tok.take (candidate_len tok) <+: name := by
  rw [strncmp_zero_iff, List.prefix_iff_eq_take]
  have hl : (tok.take (candidate_len tok)).length = candidate_len tok := by
    rw [List.length_take]; exact min_eq_left (candidate_len_le tok)
  rw [hl]

/-- The loop stops at the first entry whose name is the candidate name. -/
theorem scan_exact (tok : CString) (T : List option) (short_too : Bool) (flags : Nat)
    (rest : List option) (i0 : Nat) (m : Int) (s : Bool) (n : Nat) (o : option)
    (hn : rest[n]? = some o) (ho : o.name = tok.take (candidate_len tok))
    (hfirst : ∀ j, j < n → ∀ o', rest[j]? = some o' → o'.name ≠ tok.take (candidate_len tok)) :
    ∃ s', parse_long_options_scan tok (candidate_len tok) T short_too flags rest i0 m s
      = (((i0 + n : Nat) : Int), true, s') := by
  induction rest generalizing i0 m s n with
  | nil => simp at hn
  | cons o1 rest ih =>
    cases n with
    | zero =>
      simp only [List.getElem?_cons_zero, Option.some.injEq] at hn
      subst hn
      have he := (exact_iff tok o1.name).2 ho
      refine ⟨s, ?_⟩
      simp [parse_long_options_scan, he.1, he.2]
    | succ n =>
      simp only [List.getElem?_cons_succ] at hn
      have hne : ¬ (strncmp_zero tok o1.name (candidate_len tok) = true
          ∧ o1.name.length = candidate_len tok) := by
        rw [exact_iff]; exact hfirst 0 (Nat.succ_pos n) o1 (by simp)
      have hf' : ∀ j, j < n → ∀ o', rest[j]? = some o' → o'.name ≠ tok.take (candidate_len tok) :=
        fun j hj o' h' => hfirst (j + 1) (Nat.succ_lt_succ hj) o' (by simpa using h')
      have key : ∀ m' s', ∃ s'', parse_long_options_scan tok (candidate_len tok) T short_too flags
          rest (i0 + 1) m' s' = (((i0 + (n + 1) : Nat) : Int), true, s'') := by
        intro m' s'
        obtain ⟨s'', h⟩ := ih (i0 + 1) m' s' n hn hf'
        exact ⟨s'', by rw [h]; congr 2; omega⟩
      unfold parse_long_options_scan
      by_cases hc : strncmp_zero tok o1.name (candidate_len tok) = true
      · have hlen : ¬ (o1.name.length = candidate_len tok) := fun h => hne ⟨hc, h⟩
        simp only [hc, Bool.not_true, Bool.false_eq_true, if_false, hlen]
        split
        · exact key _ _
        · split
          · exact key _ _
          · split
            · exact key _ _
            · exact key _ _
      · simp only [Bool.not_eq_true] at hc
        simp only [hc, Bool.not_false, if_true]
        exact key _ _

/-- C8: when some entry's name equals the candidate name (the token up to the first
`'='`), the loop of `parse_long_options` selects the first such entry, the ambiguity
test fails whatever the other entries are, and the call goes on with that entry. -/
theorem parse_long_options_exact_match_wins
    (options : CString) (long_options : List option) (idx : Option Nat) (short_too : Bool)
    (flags : Nat) (st : State) (tok : CString) (i : Nat) (o : option)
    (htok : argv_at st.nargv st.optind = some tok)
    (hi : long_options[i]? = some o)
    (hname : o.name = tok.take (candidate_len tok))
    (hfirst : ∀ j, j < i → ∀ o', long_options[j]? = some o' →
      o'.name ≠ tok.take (candidate_len tok)) :
    (parse_long_options_scan tok (candidate_len tok) long_options short_too flags
        long_options 0 (-1) false).1 = (i : Int)
    ∧ ambiguous_abbreviation (parse_long_options_scan tok (candidate_len tok) long_options
        short_too flags long_options 0 (-1) false) = false
    ∧ parse_long_options options long_options idx short_too flags st
      = parse_long_options_found options idx (attached_value tok) (i : Int) o
          { st with optind := st.optind + 1 } := by
  obtain ⟨s, hs⟩ := scan_exact tok long_options short_too flags long_options 0 (-1) false i o
    hi hname hfirst
  simp only [Nat.zero_add] at hs
  refine ⟨by rw [hs], by rw [hs]; rfl, ?_⟩
  have hne : ¬ ((i : Int) = -1) := by omega
  simp only [parse_long_options, htok, hs, ambiguous_abbreviation, Bool.not_true,
    Bool.false_and, Bool.false_eq_true, if_false, ne_eq, hne, not_false_eq_true, if_true,
    Int.toNat_ofNat, hi]

/-- C8, witness: the table `foo-bar`, `foo-baz` and the candidate `foo-bar`. -/
theorem parse_long_options_exact_match_wins_witness :
    parse_long_options "".toList
        [{ name := "foo-bar".toList, has_arg := no_argument, flag := none, val := 1 },
         { name := "foo-baz".toList, has_arg := no_argument, flag := none, val := 2 }]
        none false FLAG_PERMUTE
        { State.fresh (argv ["prog", "foo-bar"]) with optind := 1 }
      = some (1, { State.fresh (argv ["prog", "foo-bar"]) with optind := 2 }) := by
  have h := (parse_long_options_exact_match_wins "".toList
        [{ name := "foo-bar".toList, has_arg := no_argument, flag := none, val := 1 },
         { name := "foo-baz".toList, has_arg := no_argument, flag := none, val := 2 }]
        none false FLAG_PERMUTE
        { State.fresh (argv ["prog", "foo-bar"]) with optind := 1 } "foo-bar".toList 0
        { name := "foo-bar".toList, has_arg := no_argument, flag := none, val := 1 }
        (by decide) (by decide) (by decide) (by intro j hj; omega)).2.2
  rw [h]
  decide

/-- The loop after a first partial match at index `m`, when no entry that remains is an
exact match: `second_partial_match` is set by the partial matches that differ from the
entry at `m`. -/
theorem scan_after_first (tok : CString) (T : List option) (short_too : Bool) (flags : Nat)
    (hflags : flags &&& FLAG_LONGONLY = 0)
    (hshort : short_too = false ∨ 1 < candidate_len tok)
    (m : Nat) (om : option) (hm : T[m]? = some om)
    (rest : List option) (i0 : Nat) (s : Bool)
    (hex : ∀ o ∈ rest, o.name ≠ tok.take (candidate_len tok)) :
    parse_long_options_scan tok (candidate_len tok) T short_too flags rest i0 (m : Int) s
      = ((m : Int), false, s || rest.any (fun o => strncmp_zero tok o.name (candidate_len tok)
          && decide (o.has_arg ≠ om.has_arg ∨ o.flag ≠ om.flag ∨ o.val ≠ om.val))) := by
  induction rest generalizing i0 s with
  | nil => simp [parse_long_options_scan]
  | cons o rest ih =>
    have hex' : ∀ o ∈ rest, o.name ≠ tok.take (candidate_len tok) :=
      fun o' h' => hex o' (List.mem_cons_of_mem _ h')
    have hne : ¬ (strncmp_zero tok o.name (candidate_len tok) = true
        ∧ o.name.length = candidate_len tok) := by
      rw [exact_iff]; exact hex o (List.mem_cons_self _ _)
    have hst : ¬ (short_too = true ∧ candidate_len tok = 1) := by
      rcases hshort with h | h
      · simp [h]
      · omega
    have hm1 : ¬ ((m : Int) = -1) := by omega
    have hget : T.getD (m : Int).toNat o = om := by
      simp [List.getD_eq_getElem?_getD, hm]
    unfold parse_long_options_scan
    by_cases hc : strncmp_zero tok o.name (candidate_len tok) = true
    · have hlen : ¬ (o.name.length = candidate_len tok) := fun h => hne ⟨hc, h⟩
      simp only [hc, Bool.not_true, Bool.false_eq_true, if_false, hlen, hst, hm1, hget, hflags]
      by_cases hd : o.has_arg ≠ om.has_arg ∨ o.flag ≠ om.flag ∨ o.val ≠ om.val
      · simp only [ne_eq, not_true_eq_false, false_or, hd, if_true]
        rw [ih (i0 + 1) true hex']
        simp [hc, hd]
      · simp only [ne_eq, not_true_eq_false, false_or, hd, if_false]
        rw [ih (i0 + 1) s hex']
        have hd2 : o.has_arg = om.has_arg ∧ o.flag = om.flag ∧ o.val = om.val := by
          simpa [not_or] using hd
        simp [hc, hd2.1, hd2.2.1, hd2.2.2]
    · simp only [Bool.not_eq_true] at hc
      simp only [hc, Bool.not_false, if_true]
      rw [ih (i0 + 1) s hex']
      simp [hc]

/-- The loop before any partial match, when no entry that remains is an exact match:
either nothing matches, or the first partial match is kept and
`second_partial_match` is set by the later partial matches that differ from it. -/
theorem scan_before_first (tok : CString) (T : List option) (short_too : Bool) (flags : Nat)
    (hflags : flags &&& FLAG_LONGONLY = 0)
    (hshort : short_too = false ∨ 1 < candidate_len tok)
    (rest : List option) (i0 : Nat) (s : Bool) (hrest : rest = T.drop i0)
    (hex : ∀ o ∈ rest, o.name ≠ tok.take (candidate_len tok)) :
    ((∀ o ∈ rest, strncmp_zero tok o.name (candidate_len tok) = false)
      ∧ parse_long_options_scan tok (candidate_len tok) T short_too flags rest i0 (-1) s
        = (-1, false, s))
    ∨ (∃ n o, rest[n]? = some o ∧ strncmp_zero tok o.name (candidate_len tok) = true
      ∧ (∀ j, j < n → ∀ o', rest[j]? = some o' →
          strncmp_zero tok o'.name (candidate_len tok) = false)
      ∧ parse_long_options_scan tok (candidate_len tok) T short_too flags rest i0 (-1) s
        = (((i0 + n : Nat) : Int), false,
            s || (rest.drop (n + 1)).any (fun o' =>
              strncmp_zero tok o'.name (candidate_len tok)
              && decide (o'.has_arg ≠ o.has_arg ∨ o'.flag ≠ o.flag ∨ o'.val ≠ o.val)))) := by
  induction rest generalizing i0 s with
  | nil => left; simp [parse_long_options_scan]
  | cons o rest ih =>
    have hex' : ∀ o ∈ rest, o.name ≠ tok.take (candidate_len tok) :=
      fun o' h' => hex o' (List.mem_cons_of_mem _ h')
    have hne : ¬ (strncmp_zero tok o.name (candidate_len tok) = true
        ∧ o.name.length = candidate_len tok) := by
      rw [exact_iff]; exact hex o (List.mem_cons_self _ _)
    have hst : ¬ (short_too = true ∧ candidate_len tok = 1) := by
      rcases hshort with h | h
      · simp [h]
      · omega
    have hrest' : rest = T.drop (i0 + 1) := by
      have := congrArg List.tail hrest
      simpa [List.tail_drop] using this
    have hi0 : T[i0]? = some o := by
      have := congrArg List.head? hrest
      simp only [List.head?_cons, List.head?_drop] at this
      exact this.symm
    by_cases hc : strncmp_zero tok o.name (candidate_len tok) = true
    · right
      have hlen : ¬ (o.name.length = candidate_len tok) := fun h => hne ⟨hc, h⟩
      refine ⟨0, o, by simp, hc, by intro j hj; omega, ?_⟩
      unfold parse_long_options_scan
      simp only [hc, Bool.not_true, Bool.false_eq_true, if_false, hlen, hst, if_true]
      rw [scan_after_first tok T short_too flags hflags hshort i0 o hi0 rest (i0 + 1) s hex']
      simp
    · simp only [Bool.not_eq_true] at hc
      have hstep : parse_long_options_scan tok (candidate_len tok) T short_too flags
          (o :: rest) i0 (-1) s
          = parse_long_options_scan tok (candidate_len tok) T short_too flags
              rest (i0 + 1) (-1) s := by
        conv_lhs => unfold parse_long_options_scan
        simp only [hc, Bool.not_false, if_true]
      rcases ih (i0 + 1) s hrest' hex' with ⟨h1, h2⟩ | ⟨n, o2, h1, h2, h3, h4⟩
      · left
        refine ⟨?_, by rw [hstep, h2]⟩
        intro o' ho'
        rcases List.mem_cons.mp ho' with rfl | h
        · exact hc
        · exact h1 o' h
      · right
        refine ⟨n + 1, o2, by simpa using h1, h2, ?_, ?_⟩
        · intro j hj o' ho'
          cases j with
          | zero => simp at ho'; subst ho'; exact hc
          | succ j => exact h3 j (by omega) o' (by simpa using ho')
        · rw [hstep, h4]
          simp only [List.drop_succ_cons]
          congr 2
          omega

/-- C9: outside long-only mode, with `short_too` clear or a candidate name longer than
one character, and no exact match: the ambiguity test of `parse_long_options` holds
exactly when two entries that have the candidate name as a prefix differ in `has_arg`,
`flag` or `val`; when it holds the call returns `'?'` with `optopt = 0`; when it fails
the call goes on with the first entry in table order that has the candidate name as a
prefix. -/
theorem parse_long_options_ambiguous_iff
    (options : CString) (long_options : List option) (idx : Option Nat) (short_too : Bool)
    (flags : Nat) (st : State) (tok : CString)
    (htok : argv_at st.nargv st.optind = some tok)
    (hflags : flags &&& FLAG_LONGONLY = 0)
    (hshort : short_too = false ∨ 1 < candidate_len tok)
    (hexact : ∀ o ∈ long_options, o.name ≠ tok.take (candidate_len tok)) :
    (ambiguous_abbreviation (parse_long_options_scan tok (candidate_len tok) long_options
        short_too flags long_options 0 (-1) false) = true
      ↔ ∃ o1 ∈ long_options, ∃ o2 ∈ long_options,
          tok.take (candidate_len tok) <+: o1.name ∧ tok.take (candidate_len tok) <+: o2.name
          ∧ (o1.has_arg ≠ o2.has_arg ∨ o1.flag ≠ o2.flag ∨ o1.val ≠ o2.val))
    ∧ (ambiguous_abbreviation (parse_long_options_scan tok (candidate_len tok) long_options
        short_too flags long_options 0 (-1) false) = true →
        parse_long_options options long_options idx short_too flags st
          = some (('?'.toNat : Int), { st with optind := st.optind + 1, optopt := 0 }))
    ∧ (ambiguous_abbreviation (parse_long_options_scan tok (candidate_len tok) long_options
        short_too flags long_options 0 (-1) false) = false →
        ∀ (n : Nat) (o : option), long_options[n]? = some o →
          tok.take (candidate_len tok) <+: o.name →
          (∀ j, j < n → ∀ o', long_options[j]? = some o' →
            ¬ tok.take (candidate_len tok) <+: o'.name) →
          parse_long_options options long_options idx short_too flags st
            = parse_long_options_found options idx (attached_value tok) (n : Int) o
                { st with optind := st.optind + 1 }) := by
  have hB := scan_before_first tok long_options short_too flags hflags hshort long_options 0
    false (by simp) hexact
  refine ⟨?_, ?_, ?_⟩
  · rcases hB with ⟨h1, h2⟩ | ⟨n, o, h1, h2, h3, h4⟩
    · rw [h2]
      constructor
      · intro h; simp [ambiguous_abbreviation] at h
      · rintro ⟨o1, ho1, _, _, hp1, _⟩
        have := h1 o1 ho1
        rw [← partial_iff] at hp1
        rw [hp1] at this
        exact absurd this (by simp)
    · rw [h4]
      simp only [ambiguous_abbreviation, Bool.not_false, Bool.true_and, Bool.false_or,
        List.any_eq_true, Bool.and_eq_true, decide_eq_true_eq]
      have hon : o ∈ long_options := List.getElem?_mem h1
      constructor
      · rintro ⟨o2, ho2, hp2, hd⟩
        refine ⟨o2, List.mem_of_mem_drop ho2, o, hon, (partial_iff _ _).1 hp2,
          (partial_iff _ _).1 h2, hd⟩
      · rintro ⟨o1, ho1, o2, ho2, hp1, hp2, hd⟩
        rw [← partial_iff] at hp1 hp2
        -- every partial match is the first one or comes after it
        have hpos : ∀ o', o' ∈ long_options → strncmp_zero tok o'.name (candidate_len tok) = true →
            o' = o ∨ o' ∈ long_options.drop (n + 1) := by
          intro o' ho' hp'
          obtain ⟨k, hk⟩ := List.getElem?_of_mem ho'
          rcases Nat.lt_trichotomy k n with hlt | heq | hgt
          · have := h3 k hlt o' hk
            rw [hp'] at this
            exact absurd this (by simp)
          · left
            subst heq
            rw [h1] at hk
            exact (Option.some.inj hk).symm
          · right
            have : (long_options.drop (n + 1))[k - (n + 1)]? = some o' := by
              rw [List.getElem?_drop]
              rw [← hk]; congr 1; omega
            exact List.getElem?_mem this
        by_contra hcon
        have hall : ∀ o', o' ∈ long_options →
            strncmp_zero tok o'.name (candidate_len tok) = true →
            o'.has_arg = o.has_arg ∧ o'.flag = o.flag ∧ o'.val = o.val := by
          intro o' ho' hp'
          rcases hpos o' ho' hp' with rfl | hmem
          · exact ⟨rfl, rfl, rfl⟩
          · by_contra hne
            apply hcon
            refine ⟨o', hmem, hp', ?_⟩
            by_contra hd2
            apply hne
            simpa [not_or] using hd2
        have e1 := hall o1 ho1 hp1
        have e2 := hall o2 ho2 hp2
        rcases hd with h | h | h
        · exact h (e1.1.trans e2.1.symm)
        · exact h (e1.2.1.trans e2.2.1.symm)
        · exact h (e1.2.2.trans e2.2.2.symm)
  · intro h
    simp only [parse_long_options, htok, h, if_true, BADCH]
  · intro h n o hn hp hfirst
    rcases hB with ⟨h1, h2⟩ | ⟨n', o', h1, h2, h3, h4⟩
    · have := h1 o (List.getElem?_mem hn)
      rw [← partial_iff] at hp
      rw [hp] at this
      exact absurd this (by simp)
    · have hnn : n' = n := by
        rcases Nat.lt_trichotomy n' n with hlt | heq | hgt
        · exact absurd ((partial_iff _ _).1 h2) (hfirst n' hlt o' h1)
        · exact heq
        · have := h3 n hgt o hn
          rw [← partial_iff] at hp
          rw [hp] at this
          exact absurd this (by simp)
      subst hnn
      rw [h1] at hn
      have hoo : o' = o := Option.some.inj hn
      subst hoo
      have hne : ¬ ((n' : Int) = -1) := by omega
      rw [h4] at h
      simp only [Nat.zero_add] at h
      simp only [parse_long_options, htok, h4, Nat.zero_add, h, Bool.false_eq_true, if_false,
        ne_eq, hne, not_false_eq_true, if_true, Int.toNat_ofNat, h1]

/-- C9, witness: for the entries `foo-bar` and `foo-baz` with different values, the
candidates `foo`, `foo-b` and `foo-ba` are ambiguous. -/
theorem parse_long_options_ambiguous_iff_witness :
    parse_long_options "".toList
        [{ name := "foo-bar".toList, has_arg := no_argument, flag := none, val := 1 },
         { name := "foo-baz".toList, has_arg := no_argument, flag := none, val := 2 }]
        none false FLAG_PERMUTE (State.fresh (argv ["prog", "foo"]))
      = some (('?'.toNat : Int), { State.fresh (argv ["prog", "foo"]) with optind := 2 })
    ∧ parse_long_options "".toList
        [{ name := "foo-bar".toList, has_arg := no_argument, flag := none, val := 1 },
         { name := "foo-baz".toList, has_arg := no_argument, flag := none, val := 2 }]
        none false FLAG_PERMUTE (State.fresh (argv ["prog", "foo-b"]))
      = some (('?'.toNat : Int), { State.fresh (argv ["prog", "foo-b"]) with optind := 2 })
    ∧ parse_long_options "".toList
        [{ name := "foo-bar".toList, has_arg := no_argument, flag := none, val := 1 },
         { name := "foo-baz".toList, has_arg := no_argument, flag := none, val := 2 }]
        none false FLAG_PERMUTE (State.fresh (argv ["prog", "foo-ba"]))
      = some (('?'.toNat : Int), { State.fresh (argv ["prog", "foo-ba"]) with optind := 2 }) := by
  have h1 := parse_long_options_ambiguous_iff "".toList
    [{ name := "foo-bar".toList, has_arg := no_argument, flag := none, val := 1 },
     { name := "foo-baz".toList, has_arg := no_argument, flag := none, val := 2 }]
    none false FLAG_PERMUTE (State.fresh (argv ["prog", "foo"])) "foo".toList
    (by decide) (by decide) (Or.inl rfl) (by decide)
  have h2 := parse_long_options_ambiguous_iff "".toList
    [{ name := "foo-bar".toList, has_arg := no_argument, flag := none, val := 1 },
     { name := "foo-baz".toList, has_arg := no_argument, flag := none, val := 2 }]
    none false FLAG_PERMUTE (State.fresh (argv ["prog", "foo-b"])) "foo-b".toList
    (by decide) (by decide) (Or.inl rfl) (by decide)
  have h3 := parse_long_options_ambiguous_iff "".toList
    [{ name := "foo-bar".toList, has_arg := no_argument, flag := none, val := 1 },
     { name := "foo-baz".toList, has_arg := no_argument, flag := none, val := 2 }]
    none false FLAG_PERMUTE (State.fresh (argv ["prog", "foo-ba"])) "foo-ba".toList
    (by decide) (by decide) (Or.inl rfl) (by decide)
  exact ⟨h1.2.1 (h1.1.2 (by decide)), h2.2.1 (h2.1.2 (by decide)), h3.2.1 (h3.1.2 (by decide))⟩

/-- C10: when the entry found by `parse_long_options` has `has_arg = no_argument` and the
token contains `'='`, the call returns `'?'`, stores nothing through `flag` or `idx`,
sets `optopt` to the entry's `val` when its `flag` is null and to 0 otherwise, and
leaves `optind` one past its value on entry. -/
theorem parse_long_options_unexpected_argument
    (options : CString) (long_options : List option) (idx : Option Nat) (short_too : Bool)
    (flags : Nat) (st : State) (tok : CString) (o : option)
    (htok : argv_at st.nargv st.optind = some tok)
    (hamb : ambiguous_abbreviation (parse_long_options_scan tok (candidate_len tok)
        long_options short_too flags long_options 0 (-1) false) = false)
    (hm : (parse_long_options_scan tok (candidate_len tok) long_options short_too flags
        long_options 0 (-1) false).1 ≠ -1)
    (ho : long_options[(parse_long_options_scan tok (candidate_len tok) long_options
        short_too flags long_options 0 (-1) false).1.toNat]? = some o)
    (hno : o.has_arg = no_argument)
    (heq : '=' ∈ tok) :
    parse_long_options options long_options idx short_too flags st
      = some (('?'.toNat : Int),
          { st with optind := st.optind + 1, optopt := if o.flag = none then o.val else 0 }) := by
  have hv := (attached_value_isSome tok).2 heq
  simp only [parse_long_options, htok, hamb, Bool.false_eq_true, if_false, hm, ne_eq,
    not_false_eq_true, if_true, ho, parse_long_options_found, hno, hv, and_self, BADCH]

/-- C10, witness: the entry `verbose` with a non-null flag and the token `verbose=yes`. -/
theorem parse_long_options_unexpected_argument_witness :
    parse_long_options "".toList
        [{ name := "verbose".toList, has_arg := no_argument, flag := some 7, val := 1 }]
        (some 3) false FLAG_PERMUTE (State.fresh (argv ["prog", "verbose=yes"]))
      = some (('?'.toNat : Int),
          { State.fresh (argv ["prog", "verbose=yes"]) with optind := 2, optopt := 0 }) := by
  have h := parse_long_options_unexpected_argument "".toList
    [{ name := "verbose".toList, has_arg := no_argument, flag := some 7, val := 1 }]
    (some 3) false FLAG_PERMUTE (State.fresh (argv ["prog", "verbose=yes"]))
    "verbose=yes".toList
    { name := "verbose".toList, has_arg := no_argument, flag := some 7, val := 1 }
    (by decide) (by decide) (by decide) (by decide) rfl (by decide)
  rw [h]
  decide

/-- The loop of `gcd` on natural numbers computes the greatest common divisor, given
enough fuel. -/
theorem gcd_loop_nat (fuel b c : Nat) (h : c < fuel) :
    gcd_loop fuel (b : Int) (c : Int) = some ((Nat.gcd b c : Nat) : Int) := by
  induction fuel generalizing b c with
  | zero => omega
  | succ fuel ih =>
    unfold gcd_loop
    by_cases hc : c = 0
    · subst hc; simp
    · have hc' : ¬ ((c : Int) = 0) := by omega
      have hlt : b % c < fuel := by
        have := Nat.mod_lt b (Nat.pos_of_ne_zero hc); omega
      rw [if_pos hc', ← Int.ofNat_tmod, ih c (b % c) hlt]
      congr 2
      rw [Nat.gcd_comm c (b % c), ← Nat.gcd_rec, Nat.gcd_comm]

/-- `gcd a b` returns the greatest common divisor when `b` is positive. -/
theorem gcd_nat (a b : Nat) (hb : 0 < b) :
    gcd (a : Int) (b : Int) = some ((Nat.gcd a b : Nat) : Int) := by
  unfold gcd
  have hb' : ¬ ((b : Int) = 0) := by omega
  rw [if_neg hb', ← Int.ofNat_tmod, Int.natAbs_ofNat]
  rw [gcd_loop_nat (b + 1) b (a % b) (by have := Nat.mod_lt a hb; omega)]
  congr 2
  rw [Nat.gcd_comm b (a % b), ← Nat.gcd_rec, Nat.gcd_comm]

section
variable {a b : Nat}

/-- One step of the inner loop, on positions. -/
theorem cycle_pos_succ (s i t : Nat) :
    cycle_pos s a b i (t + 1) = s + ((cycle_pos s a b i t - s) + b) % (a + b) := by
  unfold cycle_pos
  rw [Nat.add_sub_cancel_left, Nat.mod_add_mod]
  congr 2
  ring

/-- Cycle positions stay inside the span. -/
theorem cycle_pos_lt (s i t : Nat) (hb : 0 < b) :
    s ≤ cycle_pos s a b i t ∧ cycle_pos s a b i t < s + (a + b) := by
  unfold cycle_pos
  have := Nat.mod_lt (a + i + t * b) (show 0 < a + b by omega)
  omega

/-- Along a cycle the offset in the span keeps its residue modulo the number of cycles. -/
theorem cycle_pos_mod (s i t : Nat) :
    (cycle_pos s a b i t - s) % Nat.gcd a b = i % Nat.gcd a b := by
  unfold cycle_pos
  rw [Nat.add_sub_cancel_left]
  have hg : Nat.gcd a b ∣ a + b := Nat.dvd_add (Nat.gcd_dvd_left a b) (Nat.gcd_dvd_right a b)
  rw [Nat.mod_mod_of_dvd _ hg]
  obtain ⟨x, hx⟩ := Nat.gcd_dvd_left a b
  obtain ⟨y, hy⟩ := Nat.gcd_dvd_right a b
  generalize Nat.gcd a b = g at hx hy ⊢
  have : a + i + t * b = i + g * (x + t * y) := by
    rw [hx, hy]
    ring
  rw [this, Nat.add_mul_mod_self_left]

/-- A cycle does not revisit a position before its length. -/
theorem cycle_pos_inj (s i t u : Nat) (hb : 0 < b)
    (ht : t < (a + b) / Nat.gcd a b) (hu : u < (a + b) / Nat.gcd a b)
    (h : cycle_pos s a b i t = cycle_pos s a b i u) : t = u := by
  unfold cycle_pos at h
  have h1 : (a + i + t * b) % (a + b) = (a + i + u * b) % (a + b) := by omega
  have h2 : t * b ≡ u * b [MOD (a + b)] := Nat.ModEq.add_left_cancel' (a + i) h1
  have h3 := Nat.ModEq.cancel_right_div_gcd (show 0 < a + b by omega) h2
  rw [Nat.gcd_add_self_left] at h3
  have h4 : t % ((a + b) / Nat.gcd a b) = u % ((a + b) / Nat.gcd a b) := h3
  rwa [Nat.mod_eq_of_lt ht, Nat.mod_eq_of_lt hu] at h4

/-- A cycle closes after its length. -/
theorem cycle_pos_period (s i : Nat) :
    cycle_pos s a b i ((a + b) / Nat.gcd a b) = cycle_pos s a b i 0 := by
  unfold cycle_pos
  congr 1
  obtain ⟨y, hy⟩ := Nat.gcd_dvd_right a b
  have hg : Nat.gcd a b ∣ a + b := Nat.dvd_add (Nat.gcd_dvd_left a b) (Nat.gcd_dvd_right a b)
  have : (a + b) / Nat.gcd a b * b = (a + b) * y := by
    generalize Nat.gcd a b = g at hy hg ⊢
    calc (a + b) / g * b = (a + b) / g * (g * y) := by rw [← hy]
      _ = (a + b) / g * g * y := by rw [Nat.mul_assoc]
      _ = (a + b) * y := by rw [Nat.div_mul_cancel hg]
  rw [this, Nat.zero_mul, Nat.add_zero, Nat.add_mul_mod_self_left]

/-- Every offset of the span with the residue of a cycle lies on that cycle. -/
theorem cycle_pos_cover (s i q : Nat) (hb : 0 < b) (hq : q < a + b)
    (hi : q % Nat.gcd a b = i % Nat.gcd a b) :
    ∃ t, t < (a + b) / Nat.gcd a b ∧ cycle_pos s a b i t = s + q := by
  have hg0 : 0 < Nat.gcd a b := Nat.gcd_pos_of_pos_right a hb
  have hg : Nat.gcd a b ∣ a + b := Nat.dvd_add (Nat.gcd_dvd_left a b) (Nat.gcd_dvd_right a b)
  have hL : (a + b) / Nat.gcd a b * Nat.gcd a b = a + b := Nat.div_mul_cancel hg
  have hbound : ∀ x, x < a + b → x / Nat.gcd a b < (a + b) / Nat.gcd a b := by
    intro x hx
    rw [Nat.div_lt_iff_lt_mul hg0, hL]; exact hx
  let f : Fin ((a + b) / Nat.gcd a b) → Fin ((a + b) / Nat.gcd a b) := fun t =>
    ⟨(cycle_pos s a b i t - s) / Nat.gcd a b, hbound _ (by
      have := cycle_pos_lt (a := a) (b := b) s i t hb; omega)⟩
  have hf : Function.Injective f := by
    intro t u htu
    have h1 : (cycle_pos s a b i t - s) / Nat.gcd a b
        = (cycle_pos s a b i u - s) / Nat.gcd a b := congrArg Fin.val htu
    have h2 : (cycle_pos s a b i t - s) % Nat.gcd a b
        = (cycle_pos s a b i u - s) % Nat.gcd a b := by
      rw [cycle_pos_mod, cycle_pos_mod]
    have h3 : cycle_pos s a b i t - s = cycle_pos s a b i u - s := by
      rw [← Nat.div_add_mod (cycle_pos s a b i t - s) (Nat.gcd a b),
        ← Nat.div_add_mod (cycle_pos s a b i u - s) (Nat.gcd a b), h1, h2]
    have h4 := cycle_pos_lt (a := a) (b := b) s i t hb
    have h5 := cycle_pos_lt (a := a) (b := b) s i u hb
    exact Fin.ext (cycle_pos_inj s i t u hb t.2 u.2 (by omega))
  obtain ⟨t, ht⟩ := (Finite.injective_iff_surjective.1 hf) ⟨q / Nat.gcd a b, hbound q hq⟩
  refine ⟨t, t.2, ?_⟩
  have h1 : (cycle_pos s a b i t - s) / Nat.gcd a b = q / Nat.gcd a b := congrArg Fin.val ht
  have h2 : (cycle_pos s a b i t - s) % Nat.gcd a b = q % Nat.gcd a b := by
    rw [cycle_pos_mod, hi]
  have h3 : cycle_pos s a b i t - s = q := by
    rw [← Nat.div_add_mod (cycle_pos s a b i t - s) (Nat.gcd a b),
      ← Nat.div_add_mod q (Nat.gcd a b), h1, h2]
  have h4 := cycle_pos_lt (a := a) (b := b) s i t hb
  omega

end

/-- The update of `pos` in the inner loop, as a rotation of the offset in the span. -/
theorem next_pos_nat (s m e p : Nat) (hsm : s < m) (hme : m < e) (hp : s ≤ p) (hpe : p < e) :
    s + ((p - s) + (e - m)) % ((m - s) + (e - m))
      = if p ≥ m then p - (m - s) else p + (e - m) := by
  by_cases h : p ≥ m
  · rw [if_pos h, Nat.mod_eq_sub_mod (by omega), Nat.mod_eq_of_lt (by omega)]
    omega
  · rw [if_neg h, Nat.mod_eq_of_lt (by omega)]
    omega

/-- The element that ends at the next position comes from the current one. -/
theorem rotate_src_next (s m e p : Nat) (hsm : s < m) (hme : m < e) (hp : s ≤ p)
    (hpe : p < e) :
    rotate_src s m e (s + ((p - s) + (e - m)) % ((m - s) + (e - m))) = p := by
  rw [next_pos_nat s m e p hsm hme hp hpe]
  unfold rotate_src
  by_cases h : p ≥ m
  · rw [if_pos h, if_pos (by omega), if_pos (by omega)]; omega
  · rw [if_neg h, if_pos (by omega), if_neg (by omega)]; omega

/-- The exchange of two existing slots. -/
theorem swap_args_nat (v : List CString) (q c : Nat) (hq : q < v.length) (hc : c < v.length) :
    ∃ w, swap_args v (q : Int) (c : Int) = some w ∧ w.length = v.length
      ∧ ∀ k, w[k]? = if k = c then v[q]? else if k = q then v[c]? else v[k]? := by
  refine ⟨(v.set q v[c]).set c v[q], ?_, by simp, ?_⟩
  · simp [swap_args, argv_at, List.getElem?_eq_getElem hq, List.getElem?_eq_getElem hc]
  · intro k
    rw [List.getElem?_set, List.getElem?_set]
    by_cases h1 : k = c
    · subst h1
      simp [hc, List.getElem?_eq_getElem hq]
    · have h1' : ¬ (c = k) := fun h => h1 h.symm
      rw [if_neg h1', if_neg h1]
      by_cases h2 : k = q
      · subst h2
        simp [hq, List.getElem?_eq_getElem hc]
      · have h2' : ¬ (q = k) := fun h => h2 h.symm
        rw [if_neg h2', if_neg h2]

/-- A cycle starts at `panonopt_end + i`. -/
theorem cycle_pos_zero (s a b i : Nat) (hi : i < Nat.gcd a b) (hb : 0 < b) :
    cycle_pos s a b i 0 = s + a + i := by
  unfold cycle_pos
  have : Nat.gcd a b ≤ b := Nat.le_of_dvd hb (Nat.gcd_dvd_right a b)
  rw [Nat.zero_mul, Nat.add_zero, Nat.mod_eq_of_lt (by omega)]
  omega

/-- The inner loop of `permute_args`: walking one cycle moves each element of the cycle
one step along it and leaves every other slot alone. -/
theorem permute_cycle_spec (s m e i : Nat) (hsm : s < m) (hme : m < e) (v0 : List CString)
    (he : e ≤ v0.length) (hi : i < Nat.gcd (m - s) (e - m)) :
    ∀ (rem t : Nat) (w : List CString),
      t + rem = ((m - s) + (e - m)) / Nat.gcd (m - s) (e - m) →
      w.length = v0.length →
      (∀ u, 1 ≤ u → u ≤ t →
        w[cycle_pos s (m - s) (e - m) i u]? = v0[cycle_pos s (m - s) (e - m) i (u - 1)]?) →
      (t < ((m - s) + (e - m)) / Nat.gcd (m - s) (e - m) →
        w[m + i]? = v0[cycle_pos s (m - s) (e - m) i t]?) →
      (∀ k, (∀ u, u ≤ t → k ≠ cycle_pos s (m - s) (e - m) i u) → w[k]? = v0[k]?) →
      ∃ w1, permute_cycle (m : Int) ((m : Int) - (s : Int)) ((e : Int) - (m : Int))
            ((m : Int) + (i : Int)) rem ((cycle_pos s (m - s) (e - m) i t : Nat) : Int) w
          = some w1
        ∧ w1.length = v0.length
        ∧ (∀ u, 1 ≤ u → u ≤ ((m - s) + (e - m)) / Nat.gcd (m - s) (e - m) →
            w1[cycle_pos s (m - s) (e - m) i u]?
              = v0[cycle_pos s (m - s) (e - m) i (u - 1)]?)
        ∧ (∀ k, (∀ u, u ≤ ((m - s) + (e - m)) / Nat.gcd (m - s) (e - m) →
            k ≠ cycle_pos s (m - s) (e - m) i u) → w1[k]? = v0[k]?) := by
  have hb : 0 < e - m := by omega
  have hc0 : cycle_pos s (m - s) (e - m) i 0 = m + i := by
    rw [cycle_pos_zero s (m - s) (e - m) i hi hb]; omega
  have hper := cycle_pos_period (a := m - s) (b := e - m) s i
  have hinj := fun t u => cycle_pos_inj (a := m - s) (b := e - m) s i t u hb
  have hrng := fun t => cycle_pos_lt (a := m - s) (b := e - m) s i t hb
  generalize hL : ((m - s) + (e - m)) / Nat.gcd (m - s) (e - m) = L at hper hinj ⊢
  intro rem
  induction rem with
  | zero =>
    intro t w ht hlen h1 _ h3
    have : t = L := by omega
    subst this
    exact ⟨w, rfl, hlen, h1, h3⟩
  | succ rem ih =>
    intro t w ht hlen h1 h2 h3
    have htL : t < L := by omega
    have hpt := hrng t
    have hq := hrng (t + 1)
    -- the next position
    have hnext : (if ((cycle_pos s (m - s) (e - m) i t : Nat) : Int) ≥ (m : Int)
          then ((cycle_pos s (m - s) (e - m) i t : Nat) : Int) - ((m : Int) - (s : Int))
          else ((cycle_pos s (m - s) (e - m) i t : Nat) : Int) + ((e : Int) - (m : Int)))
        = ((cycle_pos s (m - s) (e - m) i (t + 1) : Nat) : Int) := by
      rw [cycle_pos_succ, next_pos_nat s m e _ hsm hme hpt.1 (by omega)]
      split <;> split <;> omega
    obtain ⟨w2, hsw, hlen2, hget⟩ := swap_args_nat w (cycle_pos s (m - s) (e - m) i (t + 1))
      (m + i) (by omega) (by have := Nat.le_of_dvd hb (Nat.gcd_dvd_right (m - s) (e - m)); omega)
    have hcast : ((m : Int) + (i : Int)) = ((m + i : Nat) : Int) := by push_cast; rfl
    unfold permute_cycle
    simp only [hnext]
    rw [hcast, hsw, ← hcast]
    simp only []
    -- facts about positions
    have hne0 : ∀ u, 1 ≤ u → u ≤ t → cycle_pos s (m - s) (e - m) i u ≠ m + i := by
      intro u hu1 hut h
      rw [← hc0] at h
      have := hinj u 0 (by omega) (by omega) h
      omega
    have hneq : ∀ u, u ≤ t → cycle_pos s (m - s) (e - m) i u
        ≠ cycle_pos s (m - s) (e - m) i (t + 1) ∨ (u = 0 ∧ t + 1 = L) := by
      intro u hut
      by_cases hlast : t + 1 = L
      · by_cases hu0 : u = 0
        · right; exact ⟨hu0, hlast⟩
        · left
          rw [hlast, hper, hc0]
          exact hne0 u (by omega) hut
      · left
        intro h
        have := hinj u (t + 1) (by omega) (by omega) h
        omega
    apply ih (t + 1) w2 (by omega) (by rw [hlen2, hlen])
    · intro u hu1 hut
      rw [hget]
      by_cases hu : u ≤ t
      · have hpu := hne0 u hu1 hu
        rw [if_neg hpu]
        rcases hneq u hu with h | ⟨h, _⟩
        · rw [if_neg h]; exact h1 u hu1 hu
        · omega
      · have hu' : u = t + 1 := by omega
        subst hu'
        simp only [Nat.add_sub_cancel]
        by_cases hqc : cycle_pos s (m - s) (e - m) i (t + 1) = m + i
        · rw [if_pos hqc, hqc]; exact h2 htL
        · rw [if_neg hqc]; simp only [↓reduceIte]; exact h2 htL
    · intro hlt
      rw [hget]; simp only [↓reduceIte]
      apply h3
      intro u hut h
      have := hinj (t + 1) u (by omega) (by omega) h
      omega
    · intro k hk
      rw [hget]
      have hkc : k ≠ m + i := by rw [← hc0]; exact hk 0 (by omega)
      have hkq : k ≠ cycle_pos s (m - s) (e - m) i (t + 1) := hk (t + 1) (le_refl _)
      rw [if_neg hkc, if_neg hkq]
      exact h3 k (fun u hu => hk u (by omega))

/-- Along a cycle, the element of a position comes from the previous position. -/
theorem rotate_src_cycle_pos (s m e i u : Nat) (hsm : s < m) (hme : m < e) :
    rotate_src s m e (cycle_pos s (m - s) (e - m) i (u + 1))
      = cycle_pos s (m - s) (e - m) i u := by
  have h := cycle_pos_lt (a := m - s) (b := e - m) s i u (by omega)
  rw [cycle_pos_succ]
  exact rotate_src_next s m e _ hsm hme h.1 (by omega)

/-- The outer loop of `permute_args`: after all cycles every slot holds the element of
its source index. -/
theorem permute_cycles_spec (s m e : Nat) (hsm : s < m) (hme : m < e) (v0 : List CString)
    (he : e ≤ v0.length) :
    ∀ (rem j : Nat) (w : List CString),
      j + rem = Nat.gcd (m - s) (e - m) →
      w.length = v0.length →
      (∀ k, w[k]? = if s ≤ k ∧ k < e ∧ (k - s) % Nat.gcd (m - s) (e - m) < j
          then v0[rotate_src s m e k]? else v0[k]?) →
      ∃ w1, permute_cycles (m : Int) ((m : Int) - (s : Int)) ((e : Int) - (m : Int))
            ((((m - s) + (e - m)) / Nat.gcd (m - s) (e - m) : Nat) : Int) rem (j : Int) w
          = some w1
        ∧ w1.length = v0.length
        ∧ ∀ k, w1[k]? = v0[rotate_src s m e k]? := by
  have hb : 0 < e - m := by omega
  have hg0 : 0 < Nat.gcd (m - s) (e - m) := Nat.gcd_pos_of_pos_right _ hb
  intro rem
  induction rem with
  | zero =>
    intro j w hj hlen hw
    refine ⟨w, rfl, hlen, ?_⟩
    intro k
    rw [hw k]
    by_cases hk : s ≤ k ∧ k < e
    · have : (k - s) % Nat.gcd (m - s) (e - m) < j := by
        have := Nat.mod_lt (k - s) hg0; omega
      rw [if_pos ⟨hk.1, hk.2, this⟩]
    · have hsrc : rotate_src s m e k = k := by
        unfold rotate_src; rw [if_neg hk]
      rw [hsrc]
      split <;> rfl
  | succ rem ih =>
    intro j w hj hlen hw
    have hjg : j < Nat.gcd (m - s) (e - m) := by omega
    have hc0 : cycle_pos s (m - s) (e - m) j 0 = m + j := by
      rw [cycle_pos_zero s (m - s) (e - m) j hjg hb]; omega
    have hLpos : 0 < ((m - s) + (e - m)) / Nat.gcd (m - s) (e - m) := by
      apply Nat.div_pos _ hg0
      have := Nat.le_of_dvd hb (Nat.gcd_dvd_right (m - s) (e - m)); omega
    obtain ⟨w1, hrun, hlen1, hA, hB⟩ := permute_cycle_spec s m e j hsm hme w (by omega) hjg
      (((m - s) + (e - m)) / Nat.gcd (m - s) (e - m)) 0 w (by omega) rfl
      (by intro u h1 h0; omega) (by intro _; rw [hc0]) (by intro k _; rfl)
    have hcast : ((m : Int) + (j : Int)) = ((cycle_pos s (m - s) (e - m) j 0 : Nat) : Int) := by
      rw [hc0]; push_cast; rfl
    rw [← hcast] at hrun
    have hj1 : ((j : Int) + 1) = ((j + 1 : Nat) : Int) := by push_cast; rfl
    unfold permute_cycles
    simp only [Int.toNat_ofNat]
    rw [hrun]
    simp only []
    rw [hj1]
    apply ih (j + 1) w1 (by omega) (by rw [hlen1, hlen])
    intro k
    have hL : ((m - s) + (e - m)) / Nat.gcd (m - s) (e - m) * Nat.gcd (m - s) (e - m)
        = (m - s) + (e - m) :=
      Nat.div_mul_cancel (Nat.dvd_add (Nat.gcd_dvd_left _ _) (Nat.gcd_dvd_right _ _))
    by_cases hk : s ≤ k ∧ k < e ∧ (k - s) % Nat.gcd (m - s) (e - m) = j
    · -- k lies on the cycle just walked
      obtain ⟨t, htL, hpt⟩ := cycle_pos_cover (a := m - s) (b := e - m) s j (k - s) hb (by omega)
        (by rw [hk.2.2, Nat.mod_eq_of_lt hjg])
      have hpt' : cycle_pos s (m - s) (e - m) j t = k := by omega
      -- a step number between 1 and the cycle length
      obtain ⟨u, hu1, huL, hpu⟩ : ∃ u, 1 ≤ u
          ∧ u ≤ ((m - s) + (e - m)) / Nat.gcd (m - s) (e - m)
          ∧ cycle_pos s (m - s) (e - m) j u = k := by
        by_cases ht0 : t = 0
        · refine ⟨_, hLpos, le_refl _, ?_⟩
          rw [cycle_pos_period, ← ht0]; exact hpt'
        · exact ⟨t, by omega, by omega, hpt'⟩
      rw [if_pos ⟨hk.1, hk.2.1, by omega⟩]
      have hsrc : rotate_src s m e k = cycle_pos s (m - s) (e - m) j (u - 1) := by
        rw [← hpu]
        have := rotate_src_cycle_pos s m e j (u - 1) hsm hme
        rwa [Nat.sub_add_cancel hu1] at this
      rw [← hpu, hA u hu1 huL, hw, hpu, hsrc]
      have hr := cycle_pos_lt (a := m - s) (b := e - m) s j (u - 1) hb
      have hm := cycle_pos_mod (a := m - s) (b := e - m) s j (u - 1)
      rw [Nat.mod_eq_of_lt hjg] at hm
      rw [if_neg (by omega)]
    · have hnot : ∀ u, u ≤ ((m - s) + (e - m)) / Nat.gcd (m - s) (e - m) →
          k ≠ cycle_pos s (m - s) (e - m) j u := by
        intro u _ h
        have hr := cycle_pos_lt (a := m - s) (b := e - m) s j u hb
        have hm := cycle_pos_mod (a := m - s) (b := e - m) s j u
        rw [Nat.mod_eq_of_lt hjg] at hm
        apply hk
        rw [h]
        exact ⟨hr.1, by omega, hm⟩
      rw [hB k hnot, hw]
      by_cases hlt : s ≤ k ∧ k < e ∧ (k - s) % Nat.gcd (m - s) (e - m) < j
      · rw [if_pos hlt, if_pos ⟨hlt.1, hlt.2.1, by omega⟩]
      · rw [if_neg hlt, if_neg]
        intro h
        rcases Nat.lt_succ_iff_lt_or_eq.mp h.2.2 with h' | h'
        · exact hlt ⟨h.1, h.2.1, h'⟩
        · exact hk ⟨h.1, h.2.1, h'⟩

/-- The slots of the vector with the two blocks exchanged. -/
theorem rotated_getElem? (v : List CString) (s m e : Nat) (hsm : s < m) (hme : m < e)
    (he : e ≤ v.length) (k : Nat) :
    (v.take s ++ ((v.drop m).take (e - m) ++ ((v.drop s).take (m - s) ++ v.drop e)))[k]?
      = v[rotate_src s m e k]? := by
  unfold rotate_src
  simp only [List.getElem?_append, List.length_take, List.length_drop, List.getElem?_take,
    List.getElem?_drop]
  have e1 : min s v.length = s := by omega
  have e2 : min (e - m) (v.length - m) = e - m := by omega
  have e3 : min (m - s) (v.length - s) = m - s := by omega
  rw [e1, e2, e3]
  by_cases h1 : k < s
  · rw [if_pos h1, if_pos h1, if_neg (by omega)]
  · rw [if_neg h1]
    by_cases h2 : k - s < e - m
    · rw [if_pos h2, if_pos h2, if_pos (by omega), if_pos (by omega)]
      congr 1; omega
    · rw [if_neg h2]
      by_cases h3 : k - s - (e - m) < m - s
      · rw [if_pos h3, if_pos h3, if_pos (by omega), if_neg (by omega)]
        congr 1; omega
      · rw [if_neg h3, if_neg (by omega)]
        congr 1; omega

/-- `permute_args` on natural-number indices. -/
theorem permute_args_nat (nargv : List CString) (s m e : Nat)
    (hsm : s < m) (hme : m < e) (he : e ≤ nargv.length) :
    permute_args (s : Int) (m : Int) (e : Int) nargv
      = some (nargv.take s ++ ((nargv.drop m).take (e - m)
          ++ ((nargv.drop s).take (m - s) ++ nargv.drop e))) := by
  have hb : 0 < e - m := by omega
  have hg0 : 0 < Nat.gcd (m - s) (e - m) := Nat.gcd_pos_of_pos_right _ hb
  have ha : ((m : Int) - (s : Int)) = ((m - s : Nat) : Int) := by omega
  have hbb : ((e : Int) - (m : Int)) = ((e - m : Nat) : Int) := by omega
  have hn : ((e : Int) - (s : Int)) = (((m - s) + (e - m) : Nat) : Int) := by omega
  obtain ⟨w1, hrun, hlen, hget⟩ := permute_cycles_spec s m e hsm hme nargv he
    (Nat.gcd (m - s) (e - m)) 0 nargv (by omega) rfl
    (by intro k; rw [if_neg (by omega)])
  unfold permute_args
  simp only []
  rw [ha, hbb, gcd_nat (m - s) (e - m) hb]
  simp only []
  have hne : ¬ (((Nat.gcd (m - s) (e - m) : Nat) : Int) = 0) := by omega
  rw [if_neg hne, hn, ← Int.ofNat_tdiv, Int.toNat_ofNat, ← ha, ← hbb]
  rw [show ((0 : Nat) : Int) = 0 from rfl] at hrun
  rw [hrun]
  congr 1
  apply List.ext_getElem?
  intro k
  rw [hget, rotated_getElem? nargv s m e hsm hme he]

/-- C1: for indices `0 ≤ start < mid < end ≤ length`, `permute_args` returns the vector
whose span `[start,end)` holds the original `[mid,end)` followed by the original
`[start,mid)`, each in its original order, with every element outside the span
unchanged. -/
theorem permute_args_exchanges_blocks (nargv : List CString)
    (panonopt_start panonopt_end opt_end : Int)
    (h0 : 0 ≤ panonopt_start) (h1 : panonopt_start < panonopt_end)
    (h2 : panonopt_end < opt_end) (h3 : opt_end ≤ (nargv.length : Int)) :
    permute_args panonopt_start panonopt_end opt_end nargv
      = some (nargv.take panonopt_start.toNat
          ++ ((nargv.drop panonopt_end.toNat).take (opt_end.toNat - panonopt_end.toNat)
          ++ ((nargv.drop panonopt_start.toNat).take (panonopt_end.toNat - panonopt_start.toNat)
          ++ nargv.drop opt_end.toNat))) := by
  have e1 : panonopt_start = ((panonopt_start.toNat : Nat) : Int) := by omega
  have e2 : panonopt_end = ((panonopt_end.toNat : Nat) : Int) := by omega
  have e3 : opt_end = ((opt_end.toNat : Nat) : Int) := by omega
  have h := permute_args_nat nargv panonopt_start.toNat panonopt_end.toNat opt_end.toNat
    (by omega) (by omega) (by omega)
  rw [← e1, ← e2, ← e3] at h
  exact h

/-- C1, witness: exchanging `[1,3)` and `[3,6)` in a vector of seven elements. -/
theorem permute_args_exchanges_blocks_witness :
    permute_args 1 3 6 (argv ["p", "a", "b", "c", "d", "e", "f"])
      = some (argv ["p", "c", "d", "e", "a", "b", "f"]) := by
  rw [permute_args_exchanges_blocks (argv ["p", "a", "b", "c", "d", "e", "f"]) 1 3 6
    (by decide) (by decide) (by decide) (by decide)]
  decide

/-- When the token is read, the matching loop reports no ambiguity and a match index whose entry is
`o`, `parse_long_options` continues with the found-option part on the incremented `optind`. -/
theorem parse_long_options_resolved
    (options : CString) (long_options : List option) (idx : Option Nat) (short_too : Bool)
    (flags : Nat) (st : State) (tok : CString) (o : option)
    (htok : argv_at st.nargv st.optind = some tok)
    (hamb : ambiguous_abbreviation (parse_long_options_scan tok (candidate_len tok)
        long_options short_too flags long_options 0 (-1) false) = false)
    (hm : (parse_long_options_scan tok (candidate_len tok) long_options short_too flags
        long_options 0 (-1) false).1 ≠ -1)
    (ho : long_options[(parse_long_options_scan tok (candidate_len tok) long_options
        short_too flags long_options 0 (-1) false).1.toNat]? = some o) :
    parse_long_options options long_options idx short_too flags st
      = parse_long_options_found options idx (attached_value tok)
          (parse_long_options_scan tok (candidate_len tok) long_options short_too flags
            long_options 0 (-1) false).1 o { st with optind := st.optind + 1 } := by
  simp only [parse_long_options, htok, hamb, Bool.false_eq_true, if_false, hm, ne_eq,
    not_false_eq_true, if_true, ho]

/-- A token without `'='` has no attached value. -/
theorem attached_value_none (tok : CString) (h : '=' ∉ tok) : attached_value tok = none := by
  have := attached_value_isSome tok
  cases hv : attached_value tok with
  | none => rfl
  | some v => rw [hv] at this; exact absurd (this.1 rfl) h

/-- The attached value is the text after the first `'='` of the token. -/
theorem attached_value_some (tok : CString) (k : Nat) (h : strchr tok '=' = some k) :
    attached_value tok = some (tok.drop (k + 1)) := by
  unfold attached_value; rw [h]; rfl

/-- C11: in `parse_long_options`, for a resolved entry that takes an argument. Without `'='`
in the token: a required argument with a next vector element `v` gives `optarg = v` and
`optind` two past its entry value; a required argument with the token last in the vector
returns `':'` when the short spec begins with `':'` and `'?'` otherwise, with `optind` one
past its entry value; an optional argument leaves `optarg` as it was on entry (null under
`getopt_internal`, which clears it) and `optind` one past its entry value. With an
attached `=value`, `optarg` is the text after the first `'='` and `optind` is one past its
entry value. -/
theorem parse_long_options_argument
    (options : CString) (long_options : List option) (idx : Option Nat) (short_too : Bool)
    (flags : Nat) (st : State) (tok : CString) (o : option)
    (htok : argv_at st.nargv st.optind = some tok)
    (hamb : ambiguous_abbreviation (parse_long_options_scan tok (candidate_len tok)
        long_options short_too flags long_options 0 (-1) false) = false)
    (hm : (parse_long_options_scan tok (candidate_len tok) long_options short_too flags
        long_options 0 (-1) false).1 ≠ -1)
    (ho : long_options[(parse_long_options_scan tok (candidate_len tok) long_options
        short_too flags long_options 0 (-1) false).1.toNat]? = some o)
    (harg : o.has_arg = required_argument ∨ o.has_arg = optional_argument) :
    ('=' ∉ tok → o.has_arg = required_argument →
        ∀ v, argv_at st.nargv (st.optind + 1) = some v →
        ∃ r st1, parse_long_options options long_options idx short_too flags st = some (r, st1)
          ∧ st1.optarg = some v ∧ st1.optind = st.optind + 2)
    ∧ ('=' ∉ tok → o.has_arg = required_argument → st.optind + 1 = st.nargc →
        ∃ st1, parse_long_options options long_options idx short_too flags st
            = some ((if options.getD 0 NUL = ':' then (':'.toNat : Int) else ('?'.toNat : Int)),
                st1)
          ∧ st1.optind = st.optind + 1)
    ∧ ('=' ∉ tok → o.has_arg = optional_argument →
        ∃ r st1, parse_long_options options long_options idx short_too flags st = some (r, st1)
          ∧ st1.optarg = st.optarg ∧ st1.optind = st.optind + 1)
    ∧ (∀ k, strchr tok '=' = some k →
        ∃ r st1, parse_long_options options long_options idx short_too flags st = some (r, st1)
          ∧ st1.optarg = some (tok.drop (k + 1)) ∧ st1.optind = st.optind + 1) := by
  have hres := parse_long_options_resolved options long_options idx short_too flags st tok o
    htok hamb hm ho
  have hro : required_argument ≠ optional_argument := by decide
  have hrn : required_argument ≠ no_argument := by decide
  have hon : optional_argument ≠ no_argument := by decide
  refine ⟨?_, ?_, ?_, ?_⟩
  · intro heq hreq v hv
    rw [hres, attached_value_none tok heq]
    simp only [parse_long_options_found, hreq, hrn, false_and, if_false, true_or, if_true,
      Option.isSome_none, Bool.false_eq_true, hv, true_and]
    cases idx <;> cases o.flag <;> exact ⟨_, _, rfl, rfl, by simp only []; ring⟩
  · intro heq hreq hlast
    have hnone : argv_at st.nargv (st.optind + 1) = none := by
      unfold argv_at State.nargc at *
      split
      · rw [List.getElem?_eq_none]; omega
      · rfl
    rw [hres, attached_value_none tok heq]
    simp only [parse_long_options_found, hreq, hrn, false_and, if_false, true_or, if_true,
      Option.isSome_none, Bool.false_eq_true, hnone, true_and, BADARG]
    exact ⟨_, rfl, by simp⟩
  · intro heq hopt
    rw [hres, attached_value_none tok heq]
    simp only [parse_long_options_found, hopt, hon, hro.symm, false_and, if_false, or_true,
      if_true, Option.isSome_none, Bool.false_eq_true]
    cases idx <;> cases o.flag <;> exact ⟨_, _, rfl, rfl, rfl⟩
  · intro k hk
    rw [hres, attached_value_some tok k hk]
    rcases harg with h | h
    · simp only [parse_long_options_found, h, hrn, false_and, if_false, true_or, if_true,
        Option.isSome_some, true_and]
      cases idx <;> cases o.flag <;> exact ⟨_, _, rfl, rfl, rfl⟩
    · simp only [parse_long_options_found, h, hon, hro.symm, false_and, if_false, or_true,
        if_true, Option.isSome_some]
      cases idx <;> cases o.flag <;> exact ⟨_, _, rfl, rfl, rfl⟩

/-- C11, witness: the entry `width` with a required argument and the arguments `width`, `80`. -/
theorem parse_long_options_argument_witness :
    ∃ r st1, parse_long_options "".toList
        [{ name := "width".toList, has_arg := required_argument, flag := none, val := 119 }]
        none false FLAG_PERMUTE (State.fresh (argv ["prog", "width", "80"])) = some (r, st1)
      ∧ st1.optarg = some "80".toList ∧ st1.optind = 3 := by
  have h := (parse_long_options_argument "".toList
    [{ name := "width".toList, has_arg := required_argument, flag := none, val := 119 }]
    none false FLAG_PERMUTE (State.fresh (argv ["prog", "width", "80"])) "width".toList
    { name := "width".toList, has_arg := required_argument, flag := none, val := 119 }
    (by decide) (by decide) (by decide) (by decide) (Or.inl rfl)).1
    (by decide) rfl "80".toList (by decide)
  obtain ⟨r, st1, h1, h2, h3⟩ := h
  exact ⟨r, st1, h1, h2, h3⟩

/-- C12: on a successful resolution by `parse_long_options` (no unexpected and no missing
argument): with a non-null flag location the entry's `val` is written there and the call
returns 0; otherwise the call returns the entry's `val` and nothing is written to a flag
location; in both cases the match index is stored through `idx` when `idx` is non-null,
and that is the only other store. -/
theorem parse_long_options_success
    (options : CString) (long_options : List option) (idx : Option Nat) (short_too : Bool)
    (flags : Nat) (st : State) (tok : CString) (o : option)
    (htok : argv_at st.nargv st.optind = some tok)
    (hamb : ambiguous_abbreviation (parse_long_options_scan tok (candidate_len tok)
        long_options short_too flags long_options 0 (-1) false) = false)
    (hm : (parse_long_options_scan tok (candidate_len tok) long_options short_too flags
        long_options 0 (-1) false).1 ≠ -1)
    (ho : long_options[(parse_long_options_scan tok (candidate_len tok) long_options
        short_too flags long_options 0 (-1) false).1.toNat]? = some o)
    (hunexpected : ¬ (o.has_arg = no_argument ∧ '=' ∈ tok))
    (hmissing : ¬ (o.has_arg = required_argument ∧ '=' ∉ tok
        ∧ argv_at st.nargv (st.optind + 1) = none)) :
    (∀ p, o.flag = some p →
        ∃ st1, parse_long_options options long_options idx short_too flags st = some (0, st1)
          ∧ st1.mem = IntMem.store
              (match idx with
                | some q => IntMem.store st.mem q (parse_long_options_scan tok
                    (candidate_len tok) long_options short_too flags long_options 0 (-1) false).1
                | none => st.mem) p o.val)
    ∧ (o.flag = none →
        ∃ st1, parse_long_options options long_options idx short_too flags st
            = some (o.val, st1)
          ∧ st1.mem = (match idx with
                | some q => IntMem.store st.mem q (parse_long_options_scan tok
                    (candidate_len tok) long_options short_too flags long_options 0 (-1) false).1
                | none => st.mem)) := by
  have hres := parse_long_options_resolved options long_options idx short_too flags st tok o
    htok hamb hm ho
  rw [hres]
  have h1 : ¬ (o.has_arg = no_argument ∧ (attached_value tok).isSome = true) := by
    rw [attached_value_isSome]; exact hunexpected
  generalize (parse_long_options_scan tok (candidate_len tok) long_options short_too flags
    long_options 0 (-1) false).1 = mtch
  have hro : required_argument ≠ optional_argument := by decide
  unfold parse_long_options_found
  rw [if_neg h1]
  by_cases hr : o.has_arg = required_argument
  · by_cases he : (attached_value tok).isSome = true
    · obtain ⟨v, hv⟩ := Option.isSome_iff_exists.mp he
      simp only [hr, true_or, if_true, hv, Option.isSome_some, true_and]
      constructor
      · intro p hp
        rw [hp]
        cases idx <;> exact ⟨_, rfl, rfl⟩
      · intro hp
        rw [hp]
        cases idx <;> exact ⟨_, rfl, rfl⟩
    · have hne : '=' ∉ tok := fun h => he ((attached_value_isSome tok).2 h)
      have hnext : argv_at st.nargv (st.optind + 1) ≠ none := fun h => hmissing ⟨hr, hne, h⟩
      obtain ⟨v, hv⟩ := Option.ne_none_iff_exists'.mp hnext
      simp only [hr, true_or, if_true, he, Bool.false_eq_true, if_false, hv, true_and]
      constructor
      · intro p hp
        rw [hp]
        cases idx <;> exact ⟨_, rfl, rfl⟩
      · intro hp
        rw [hp]
        cases idx <;> exact ⟨_, rfl, rfl⟩
  · by_cases hopt : o.has_arg = optional_argument
    · by_cases he : (attached_value tok).isSome = true
      · simp only [hopt, hro.symm, false_or, false_and, if_true, if_false, he]
        constructor
        · intro p hp
          rw [hp]
          cases idx <;> exact ⟨_, rfl, rfl⟩
        · intro hp
          rw [hp]
          cases idx <;> exact ⟨_, rfl, rfl⟩
      · simp only [hopt, hro.symm, false_or, false_and, if_true, if_false, he,
          Bool.false_eq_true]
        constructor
        · intro p hp
          rw [hp]
          cases idx <;> exact ⟨_, rfl, rfl⟩
        · intro hp
          rw [hp]
          cases idx <;> exact ⟨_, rfl, rfl⟩
    · simp only [hr, hopt, false_or, false_and, if_false]
      constructor
      · intro p hp
        rw [hp]
        cases idx <;> exact ⟨_, rfl, rfl⟩
      · intro hp
        rw [hp]
        cases idx <;> exact ⟨_, rfl, rfl⟩

/-- C12, witness: the entry `verbose` with flag location 7 and `idx` location 3. -/
theorem parse_long_options_success_witness :
    ∃ st1, parse_long_options "".toList
        [{ name := "verbose".toList, has_arg := no_argument, flag := some 7, val := 1 }]
        (some 3) false FLAG_PERMUTE (State.fresh (argv ["prog", "verbose"])) = some (0, st1)
      ∧ st1.mem = [(7, 1), (3, 0)] := by
  obtain ⟨st1, h1, h2⟩ := (parse_long_options_success "".toList
    [{ name := "verbose".toList, has_arg := no_argument, flag := some 7, val := 1 }]
    (some 3) false FLAG_PERMUTE (State.fresh (argv ["prog", "verbose"])) "verbose".toList
    { name := "verbose".toList, has_arg := no_argument, flag := some 7, val := 1 }
    (by decide) (by decide) (by decide) (by decide) (by decide) (by decide)).1 7 rfl
  exact ⟨st1, h1, h2.trans (by decide)⟩

/-- The matching loop keeps its accumulators when no entry of the rest of the table is an exact or
an admissible partial match. -/
theorem scan_no_match (tok : CString) (T : List option) (short_too : Bool) (flags : Nat)
    (rest : List option) (i0 : Nat) (m : Int) (s : Bool)
    (hexact : ∀ o ∈ rest, o.name ≠ tok.take (candidate_len tok))
    (hpart : (∀ o ∈ rest, ¬ tok.take (candidate_len tok) <+: o.name)
      ∨ (short_too = true ∧ candidate_len tok = 1)) :
    parse_long_options_scan tok (candidate_len tok) T short_too flags rest i0 m s
      = (m, false, s) := by
  induction rest generalizing i0 with
  | nil => simp [parse_long_options_scan]
  | cons o rest ih =>
    have hex' : ∀ o ∈ rest, o.name ≠ tok.take (candidate_len tok) :=
      fun o' h' => hexact o' (List.mem_cons_of_mem _ h')
    have hpart' : (∀ o ∈ rest, ¬ tok.take (candidate_len tok) <+: o.name)
        ∨ (short_too = true ∧ candidate_len tok = 1) := by
      rcases hpart with h | h
      · exact Or.inl (fun o' h' => h o' (List.mem_cons_of_mem _ h'))
      · exact Or.inr h
    have hne : ¬ (strncmp_zero tok o.name (candidate_len tok) = true
        ∧ o.name.length = candidate_len tok) := by
      rw [exact_iff]; exact hexact o (List.mem_cons_self _ _)
    unfold parse_long_options_scan
    by_cases hc : strncmp_zero tok o.name (candidate_len tok) = true
    · have hlen : ¬ (o.name.length = candidate_len tok) := fun h => hne ⟨hc, h⟩
      have hst : short_too = true ∧ candidate_len tok = 1 := by
        rcases hpart with h | h
        · exact absurd ((partial_iff _ _).1 hc) (h o (List.mem_cons_self _ _))
        · exact h
      simp only [hc, Bool.not_true, Bool.false_eq_true, if_false, hlen]
      rw [if_pos hst]
      exact ih (i0 + 1) hex' hpart'
    · simp only [Bool.not_eq_true] at hc
      simp only [hc, Bool.not_false, if_true]
      exact ih (i0 + 1) hex' hpart'

/-- C13: when no table entry matches the candidate name (no exact match, and no partial
match or only one-character partial matches with `short_too` set): with `short_too` set
`parse_long_options` returns -1 and the state is the state on entry; with `short_too`
clear it returns `'?'` with `optopt = 0` and `optind` advanced by one. -/
theorem parse_long_options_no_match
    (options : CString) (long_options : List option) (idx : Option Nat) (short_too : Bool)
    (flags : Nat) (st : State) (tok : CString)
    (htok : argv_at st.nargv st.optind = some tok)
    (hexact : ∀ o ∈ long_options, o.name ≠ tok.take (candidate_len tok))
    (hpart : (∀ o ∈ long_options, ¬ tok.take (candidate_len tok) <+: o.name)
      ∨ (short_too = true ∧ candidate_len tok = 1)) :
    (short_too = true →
      parse_long_options options long_options idx short_too flags st = some (-1, st))
    ∧ (short_too = false →
      parse_long_options options long_options idx short_too flags st
        = some (('?'.toNat : Int), { st with optind := st.optind + 1, optopt := 0 })) := by
  have hscan := scan_no_match tok long_options short_too flags long_options 0 (-1) false
    hexact hpart
  constructor
  · intro hs
    subst hs
    simp only [parse_long_options, htok, hscan, ambiguous_abbreviation, Bool.not_false,
      Bool.and_false, Bool.false_eq_true, if_false, ne_eq, not_true_eq_false, if_true]
    congr 2
    cases st
    simp
  · intro hs
    subst hs
    simp only [parse_long_options, htok, hscan, ambiguous_abbreviation, Bool.not_false,
      Bool.and_false, Bool.false_eq_true, if_false, ne_eq, not_true_eq_false, BADCH]

/-- C13, witness: the token `v` with `short_too` set against the entry `verbose`, and the
token `quiet` with `short_too` clear. -/
theorem parse_long_options_no_match_witness :
    parse_long_options "v".toList
        [{ name := "verbose".toList, has_arg := no_argument, flag := none, val := 1 }]
        none true FLAG_LONGONLY (State.fresh (argv ["prog", "v"]))
      = some (-1, State.fresh (argv ["prog", "v"]))
    ∧ parse_long_options "".toList
        [{ name := "verbose".toList, has_arg := no_argument, flag := none, val := 1 }]
        none false FLAG_PERMUTE (State.fresh (argv ["prog", "quiet"]))
      = some (('?'.toNat : Int), { State.fresh (argv ["prog", "quiet"]) with optind := 2 }) :=
  ⟨(parse_long_options_no_match "v".toList
      [{ name := "verbose".toList, has_arg := no_argument, flag := none, val := 1 }]
      none true FLAG_LONGONLY (State.fresh (argv ["prog", "v"])) "v".toList
      (by decide) (by decide) (Or.inr (by decide))).1 rfl,
   (parse_long_options_no_match "".toList
      [{ name := "verbose".toList, has_arg := no_argument, flag := none, val := 1 }]
      none false FLAG_PERMUTE (State.fresh (argv ["prog", "quiet"])) "quiet".toList
      (by decide) (by decide) (Or.inl (by decide))).2 rfl⟩

/-- In long-only mode, after a first partial match, with no exact match among the remaining entries,
the matching loop keeps the first match and sets `second_partial_match` exactly when a
remaining entry has the candidate name as a prefix. -/
theorem scan_after_first_longonly (tok : CString) (T : List option) (short_too : Bool)
    (flags : Nat) (hflags : flags &&& FLAG_LONGONLY ≠ 0)
    (hshort : short_too = false ∨ 1 < candidate_len tok)
    (m : Nat) (rest : List option) (i0 : Nat) (s : Bool)
    (hex : ∀ o ∈ rest, o.name ≠ tok.take (candidate_len tok)) :
    parse_long_options_scan tok (candidate_len tok) T short_too flags rest i0 (m : Int) s
      = ((m : Int), false,
          s || rest.any (fun o => strncmp_zero tok o.name (candidate_len tok))) := by
  induction rest generalizing i0 s with
  | nil => simp [parse_long_options_scan]
  | cons o rest ih =>
    have hex' : ∀ o ∈ rest, o.name ≠ tok.take (candidate_len tok) :=
      fun o' h' => hex o' (List.mem_cons_of_mem _ h')
    have hne : ¬ (strncmp_zero tok o.name (candidate_len tok) = true
        ∧ o.name.length = candidate_len tok) := by
      rw [exact_iff]; exact hex o (List.mem_cons_self _ _)
    have hst : ¬ (short_too = true ∧ candidate_len tok = 1) := by
      rcases hshort with h | h
      · simp [h]
      · omega
    have hm1 : ¬ ((m : Int) = -1) := by omega
    unfold parse_long_options_scan
    by_cases hc : strncmp_zero tok o.name (candidate_len tok) = true
    · have hlen : ¬ (o.name.length = candidate_len tok) := fun h => hne ⟨hc, h⟩
      simp only [hc, Bool.not_true, Bool.false_eq_true, if_false, hlen, hst, hm1]
      rw [if_pos (Or.inl hflags), ih (i0 + 1) true hex']
      simp [hc]
    · simp only [Bool.not_eq_true] at hc
      simp only [hc, Bool.not_false, if_true]
      rw [ih (i0 + 1) s hex']
      simp [hc]

/-- In long-only mode, with no exact match, the matching loop either finds no partial match or
stops with the first one and the long-only test on the entries after it. -/
theorem scan_before_first_longonly (tok : CString) (T : List option) (short_too : Bool)
    (flags : Nat) (hflags : flags &&& FLAG_LONGONLY ≠ 0)
    (hshort : short_too = false ∨ 1 < candidate_len tok)
    (rest : List option) (i0 : Nat) (s : Bool)
    (hex : ∀ o ∈ rest, o.name ≠ tok.take (candidate_len tok)) :
    ((∀ o ∈ rest, strncmp_zero tok o.name (candidate_len tok) = false)
      ∧ parse_long_options_scan tok (candidate_len tok) T short_too flags rest i0 (-1) s
        = (-1, false, s))
    ∨ (∃ n o, rest[n]? = some o ∧ strncmp_zero tok o.name (candidate_len tok) = true
      ∧ (∀ j, j < n → ∀ o', rest[j]? = some o' →
          strncmp_zero tok o'.name (candidate_len tok) = false)
      ∧ parse_long_options_scan tok (candidate_len tok) T short_too flags rest i0 (-1) s
        = (((i0 + n : Nat) : Int), false,
            s || (rest.drop (n + 1)).any (fun o' =>
              strncmp_zero tok o'.name (candidate_len tok)))) := by
  induction rest generalizing i0 s with
  | nil => left; simp [parse_long_options_scan]
  | cons o rest ih =>
    have hex' : ∀ o ∈ rest, o.name ≠ tok.take (candidate_len tok) :=
      fun o' h' => hex o' (List.mem_cons_of_mem _ h')
    have hne : ¬ (strncmp_zero tok o.name (candidate_len tok) = true
        ∧ o.name.length = candidate_len tok) := by
      rw [exact_iff]; exact hex o (List.mem_cons_self _ _)
    have hst : ¬ (short_too = true ∧ candidate_len tok = 1) := by
      rcases hshort with h | h
      · simp [h]
      · omega
    by_cases hc : strncmp_zero tok o.name (candidate_len tok) = true
    · right
      have hlen : ¬ (o.name.length = candidate_len tok) := fun h => hne ⟨hc, h⟩
      refine ⟨0, o, by simp, hc, by intro j hj; omega, ?_⟩
      unfold parse_long_options_scan
      simp only [hc, Bool.not_true, Bool.false_eq_true, if_false, hlen, hst, if_true]
      rw [scan_after_first_longonly tok T short_too flags hflags hshort i0 rest (i0 + 1) s hex']
      simp
    · simp only [Bool.not_eq_true] at hc
      have hstep : parse_long_options_scan tok (candidate_len tok) T short_too flags
          (o :: rest) i0 (-1) s
          = parse_long_options_scan tok (candidate_len tok) T short_too flags
              rest (i0 + 1) (-1) s := by
        conv_lhs => unfold parse_long_options_scan
        simp only [hc, Bool.not_false, if_true]
      rcases ih (i0 + 1) s hex' with ⟨h1, h2⟩ | ⟨n, o2, h1, h2, h3, h4⟩
      · left
        refine ⟨?_, by rw [hstep, h2]⟩
        intro o' ho'
        rcases List.mem_cons.mp ho' with rfl | h
        · exact hc
        · exact h1 o' h
      · right
        refine ⟨n + 1, o2, by simpa using h1, h2, ?_, ?_⟩
        · intro j hj o' ho'
          cases j with
          | zero => simp at ho'; subst ho'; exact hc
          | succ j => exact h3 j (by omega) o' (by simpa using ho')
        · rw [hstep, h4]
          simp only [List.drop_succ_cons]
          congr 2
          omega
/-- C19, amended: in long-only mode, with `short_too` clear or a candidate name longer than
one character, and no exact match: the ambiguity test of `parse_long_options` holds exactly
when two entries at different table positions have the candidate name as a prefix,
whatever their `has_arg`, `flag` and `val`; when it holds the call returns `'?'` with
`optopt = 0`; when it fails the call goes on with the first entry in table order that has
the candidate name as a prefix. -/
theorem parse_long_options_longonly_ambiguous
    (options : CString) (long_options : List option) (idx : Option Nat) (short_too : Bool)
    (flags : Nat) (st : State) (tok : CString)
    (htok : argv_at st.nargv st.optind = some tok)
    (hflags : flags &&& FLAG_LONGONLY ≠ 0)
    (hshort : short_too = false ∨ 1 < candidate_len tok)
    (hexact : ∀ o ∈ long_options, o.name ≠ tok.take (candidate_len tok)) :
    (ambiguous_abbreviation (parse_long_options_scan tok (candidate_len tok) long_options
        short_too flags long_options 0 (-1) false) = true
      ↔ ∃ (i j : Nat) (o1 o2 : option), i < j ∧ long_options[i]? = some o1
          ∧ long_options[j]? = some o2
          ∧ tok.take (candidate_len tok) <+: o1.name
          ∧ tok.take (candidate_len tok) <+: o2.name)
    ∧ (ambiguous_abbreviation (parse_long_options_scan tok (candidate_len tok) long_options
        short_too flags long_options 0 (-1) false) = true →
        parse_long_options options long_options idx short_too flags st
          = some (('?'.toNat : Int), { st with optind := st.optind + 1, optopt := 0 }))
    ∧ (ambiguous_abbreviation (parse_long_options_scan tok (candidate_len tok) long_options
        short_too flags long_options 0 (-1) false) = false →
        ∀ (n : Nat) (o : option), long_options[n]? = some o →
          tok.take (candidate_len tok) <+: o.name →
          (∀ j, j < n → ∀ o', long_options[j]? = some o' →
            ¬ tok.take (candidate_len tok) <+: o'.name) →
          parse_long_options options long_options idx short_too flags st
            = parse_long_options_found options idx (attached_value tok) (n : Int) o
                { st with optind := st.optind + 1 }) := by
  have hB := scan_before_first_longonly tok long_options short_too flags hflags hshort
    long_options 0 false hexact
  refine ⟨?_, ?_, ?_⟩
  · rcases hB with ⟨h1, h2⟩ | ⟨n, o, h1, h2, h3, h4⟩
    · rw [h2]
      constructor
      · intro h; simp [ambiguous_abbreviation] at h
      · rintro ⟨i, j, o1, o2, _, ho1, _, hp1, _⟩
        have := h1 o1 (List.getElem?_mem ho1)
        rw [← partial_iff] at hp1
        rw [hp1] at this
        exact absurd this (by simp)
    · rw [h4]
      simp only [ambiguous_abbreviation, Bool.not_false, Bool.true_and, Bool.false_or,
        List.any_eq_true]
      constructor
      · rintro ⟨o2, ho2, hp2⟩
        obtain ⟨k, hk⟩ := List.getElem?_of_mem ho2
        rw [List.getElem?_drop] at hk
        exact ⟨n, n + 1 + k, o, o2, by omega, h1, hk, (partial_iff _ _).1 h2,
          (partial_iff _ _).1 hp2⟩
      · rintro ⟨i, j, o1, o2, hij, ho1, ho2, hp1, hp2⟩
        rw [← partial_iff] at hp1 hp2
        have hni : n ≤ i := by
          by_contra hlt
          have := h3 i (by omega) o1 ho1
          rw [hp1] at this
          exact absurd this (by simp)
        refine ⟨o2, ?_, hp2⟩
        have hj : j = n + 1 + (j - (n + 1)) := by omega
        rw [hj] at ho2
        rw [← List.getElem?_drop] at ho2
        exact List.getElem?_mem ho2
  · intro h
    simp only [parse_long_options, htok, h, if_true, BADCH]
  · intro h n o hn hp hfirst
    rcases hB with ⟨h1, h2⟩ | ⟨n', o', h1, h2, h3, h4⟩
    · have := h1 o (List.getElem?_mem hn)
      rw [← partial_iff] at hp
      rw [hp] at this
      exact absurd this (by simp)
    · have hnn : n' = n := by
        rcases Nat.lt_trichotomy n' n with hlt | heq | hgt
        · exact absurd ((partial_iff _ _).1 h2) (hfirst n' hlt o' h1)
        · exact heq
        · have := h3 n hgt o hn
          rw [← partial_iff] at hp
          rw [hp] at this
          exact absurd this (by simp)
      subst hnn
      rw [h1] at hn
      have hoo := Option.some.inj hn
      subst hoo
      have hne : ¬ (((0 + n' : Nat) : Int) = -1) := by omega
      simp only [Nat.zero_add] at h4 hne
      rw [h4] at h
      simp only [parse_long_options, htok, h4, h, Bool.false_eq_true, if_false,
        ne_eq, hne, not_false_eq_true, if_true, Int.toNat_ofNat, h1]

/-- C19, witness: in long-only mode the candidate `foo` is ambiguous between `foo-bar` and
`foo-baz` although both carry the same fields, and resolves to `foo-bar` when that is the
only entry it is a prefix of. -/
theorem parse_long_options_longonly_ambiguous_witness :
    parse_long_options "".toList
        [{ name := "foo-bar".toList, has_arg := no_argument, flag := none, val := 1 },
         { name := "foo-baz".toList, has_arg := no_argument, flag := none, val := 1 }]
        none false (FLAG_PERMUTE ||| FLAG_LONGONLY) (State.fresh (argv ["prog", "foo"]))
      = some (('?'.toNat : Int), { State.fresh (argv ["prog", "foo"]) with optind := 2 })
    ∧ parse_long_options "".toList
        [{ name := "foo-bar".toList, has_arg := no_argument, flag := none, val := 1 },
         { name := "verbose".toList, has_arg := no_argument, flag := none, val := 2 }]
        none false (FLAG_PERMUTE ||| FLAG_LONGONLY) (State.fresh (argv ["prog", "foo"]))
      = some (1, { State.fresh (argv ["prog", "foo"]) with optind := 2 }) := by
  have h1 := parse_long_options_longonly_ambiguous "".toList
    [{ name := "foo-bar".toList, has_arg := no_argument, flag := none, val := 1 },
     { name := "foo-baz".toList, has_arg := no_argument, flag := none, val := 1 }]
    none false (FLAG_PERMUTE ||| FLAG_LONGONLY) (State.fresh (argv ["prog", "foo"]))
    "foo".toList (by decide) (by decide) (Or.inl rfl) (by decide)
  have h2 := parse_long_options_longonly_ambiguous "".toList
    [{ name := "foo-bar".toList, has_arg := no_argument, flag := none, val := 1 },
     { name := "verbose".toList, has_arg := no_argument, flag := none, val := 2 }]
    none false (FLAG_PERMUTE ||| FLAG_LONGONLY) (State.fresh (argv ["prog", "foo"]))
    "foo".toList (by decide) (by decide) (Or.inl rfl) (by decide)
  refine ⟨h1.2.1 (by decide), ?_⟩
  have h3 := h2.2.2 (by decide) 0 _ rfl (by decide) (by intro j hj; omega)
  rw [h3]
  rfl

/-- C19, counterexample: in long-only mode, with the entries `foo-bar` and `foo-baz` that
carry the same `has_arg`, `flag` and `val`, and the token `foo` (no exact match), the call
returns `'?'` with `optopt = 0`; resolving the first partial match would have returned
the value 1. -/
theorem parse_long_options_longonly_counterexample :
    (∀ o ∈ ([{ name := "foo-bar".toList, has_arg := no_argument, flag := none, val := 1 },
             { name := "foo-baz".toList, has_arg := no_argument, flag := none, val := 1 }]
              : List option),
        o.name ≠ "foo".toList ∧ "foo".toList <+: o.name
          ∧ o.has_arg = no_argument ∧ o.flag = none ∧ o.val = 1)
    ∧ FLAG_LONGONLY &&& FLAG_LONGONLY ≠ 0
    ∧ parse_long_options "".toList
        [{ name := "foo-bar".toList, has_arg := no_argument, flag := none, val := 1 },
         { name := "foo-baz".toList, has_arg := no_argument, flag := none, val := 1 }]
        none false FLAG_LONGONLY (State.fresh (argv ["prog", "foo"]))
      = some (('?'.toNat : Int),
          { State.fresh (argv ["prog", "foo"]) with optind := 2, optopt := 0 })
    ∧ parse_long_options_found "".toList none (attached_value "foo".toList) 0
        { name := "foo-bar".toList, has_arg := no_argument, flag := none, val := 1 }
        { State.fresh (argv ["prog", "foo"]) with optind := 2 }
      = some (1, { State.fresh (argv ["prog", "foo"]) with optind := 2 }) := by
  refine ⟨by decide, by decide, by rfl, by rfl⟩

/-- The found-option part of `parse_long_options` never leaves `optind` below its value on entry
and does not touch the scan pointer. -/
theorem found_progress (options : CString) (idx : Option Nat) (he : Option CString)
    (m : Int) (o : option) (st : State) (r : Int) (st1 : State)
    (h : parse_long_options_found options idx he m o st = some (r, st1)) :
    st.optind ≤ st1.optind ∧ st1.place = st.place := by
  unfold parse_long_options_found at h
  simp only [] at h
  by_cases h1 : o.has_arg = no_argument ∧ he.isSome = true
  · rw [if_pos h1] at h
    simp only [Option.some.injEq, Prod.mk.injEq] at h
    obtain ⟨_, rfl⟩ := h
    simp
  · rw [if_neg h1] at h
    by_cases hreq : o.has_arg = required_argument
    · by_cases hh : he.isSome = true
      · obtain ⟨v, rfl⟩ := Option.isSome_iff_exists.mp hh
        simp only [hreq, true_or, if_true, Option.isSome_some, true_and, reduceCtorEq,
          if_false] at h
        cases idx <;> cases hf : o.flag <;>
          simp only [hf, Option.some.injEq, Prod.mk.injEq] at h <;>
          obtain ⟨_, rfl⟩ := h <;> simp
      · simp only [hreq, true_or, if_true, hh, Bool.false_eq_true, if_false, true_and] at h
        by_cases hn : argv_at st.nargv st.optind = none
        · simp only [hn, if_true, Option.some.injEq, Prod.mk.injEq] at h
          obtain ⟨_, rfl⟩ := h
          simp
        · simp only [hn, if_false] at h
          cases idx <;> cases hf : o.flag <;>
            simp only [hf, Option.some.injEq, Prod.mk.injEq] at h <;>
            obtain ⟨_, rfl⟩ := h <;> simp
    · simp only [hreq, false_or, false_and, if_false] at h
      split_ifs at h <;> cases idx <;> cases hf : o.flag <;>
        simp only [hf, Option.some.injEq, Prod.mk.injEq] at h <;>
        obtain ⟨_, rfl⟩ := h <;> simp
/-- A call of `parse_long_options` never lowers `optind`, and raises it by at least one unless it
returns `-1`. -/
theorem parse_progress (options : CString) (lopts : List option) (idx : Option Nat)
    (short_too : Bool) (flags : Nat) (st : State) (r : Int) (st1 : State)
    (h : parse_long_options options lopts idx short_too flags st = some (r, st1)) :
    st.optind ≤ st1.optind ∧ (r ≠ -1 → st.optind + 1 ≤ st1.optind)
      ∧ st1.place = st.place := by
  unfold parse_long_options at h
  cases htok : argv_at st.nargv st.optind with
  | none => rw [htok] at h; simp at h
  | some tok =>
    rw [htok] at h
    simp only [] at h
    split_ifs at h with h1 h2 h3
    · simp only [Option.some.injEq, Prod.mk.injEq] at h
      obtain ⟨_, rfl⟩ := h
      simp
    · split at h
      · simp at h
      · have := found_progress _ _ _ _ _ _ _ _ h
        simp only at this
        refine ⟨by omega, fun _ => this.1, this.2⟩
    · simp only [Option.some.injEq, Prod.mk.injEq] at h
      obtain ⟨rfl, rfl⟩ := h
      simp
    · simp only [Option.some.injEq, Prod.mk.injEq] at h
      obtain ⟨_, rfl⟩ := h
      simp

/-- C15: on `["prog","f1","--","-a"]` with the short spec `"a"` and the permute flag, the
call of `getopt_internal` is undefined (it reads its unassigned scan pointer): it does
not return -1 with `f1` moved behind the `--`. -/
theorem getopt_internal_double_dash_undefined (char_signed : Bool) :
    getopt_internal char_signed (some "a".toList) none none FLAG_PERMUTE
        (State.fresh (argv ["prog", "f1", "--", "-a"]))
      = none :=
  getopt_internal_reads_unassigned_place char_signed _ _ _ _ _

/-- C16: on `["prog","f1"]` with the short spec `"-a"`, the call of `getopt_internal` is
undefined (it reads its unassigned scan pointer): it does not return 1 with
`optarg = "f1"`. -/
theorem getopt_internal_return_in_order_undefined (char_signed : Bool) :
    getopt_internal char_signed (some "-a".toList) none none FLAG_PERMUTE
        (State.fresh (argv ["prog", "f1"]))
      = none :=
  getopt_internal_reads_unassigned_place char_signed _ _ _ _ _

/-- C18: on `["prog","-a","file1","-b","val","file2"]` with the spec `"ab:"`, repeated
calls of `getopt_r` from the fresh state return `'a'` and then -1 at the operand
`file1`, with `optind = 2` and the vector in its original order: `-b val` is never
scanned and nothing is permuted. -/
theorem getopt_r_stops_at_first_operand (char_signed : Bool) :
    (call_until_end (getopt_r char_signed "ab:".toList) 6
        (State.fresh (argv ["prog", "-a", "file1", "-b", "val", "file2"]))).map
      (fun p => (p.1, p.2.nargv, p.2.optind))
    = some ([(('a'.toNat : Int), none), (-1, none)],
        argv ["prog", "-a", "file1", "-b", "val", "file2"], 2) := by
  cases char_signed <;> decide

/-- Swaps of two lists made one after the other. -/
theorem apply_swaps_append (l1 l2 : List (Int × Int)) (nargv : List CString) :
    apply_swaps (l1 ++ l2) nargv = (apply_swaps l1 nargv).bind (apply_swaps l2) := by
  induction l1 generalizing nargv with
  | nil => rfl
  | cons p l1 ih =>
    simp only [List.cons_append, apply_swaps]
    cases swap_args nargv p.1 p.2 with
    | none => rfl
    | some v => exact ih v

/-- The inner loop of `permute_args` makes exactly the swaps of its index pairs. -/
theorem permute_cycle_run (panonopt_end nnonopts nopts cstart : Int) (j : Nat) (pos : Int)
    (nargv : List CString) :
    permute_cycle panonopt_end nnonopts nopts cstart j pos nargv
      = apply_swaps (permute_cycle_swaps panonopt_end nnonopts nopts cstart j pos) nargv := by
  induction j generalizing pos nargv with
  | zero => rfl
  | succ j ih =>
    simp only [permute_cycle, permute_cycle_swaps, apply_swaps]
    cases swap_args nargv (if pos ≥ panonopt_end then pos - nnonopts else pos + nopts) cstart with
    | none => rfl
    | some v => exact ih _ v

/-- The outer loop of `permute_args` makes exactly the swaps of its index pairs. -/
theorem permute_cycles_run (panonopt_end nnonopts nopts cyclelen : Int) (k : Nat) (i : Int)
    (nargv : List CString) :
    permute_cycles panonopt_end nnonopts nopts cyclelen k i nargv
      = apply_swaps (permute_cycles_swaps panonopt_end nnonopts nopts cyclelen k i) nargv := by
  induction k generalizing i nargv with
  | zero => rfl
  | succ k ih =>
    simp only [permute_cycles, permute_cycles_swaps, apply_swaps_append, permute_cycle_run]
    cases apply_swaps (permute_cycle_swaps panonopt_end nnonopts nopts (panonopt_end + i)
        cyclelen.toNat (panonopt_end + i)) nargv with
    | none => rfl
    | some v => exact ih _ v

/-- The function `permute_args` is undefined exactly when its index computation is, and otherwise
makes the swaps of `permute_args_swaps` in order. -/
theorem permute_args_run (panonopt_start panonopt_end opt_end : Int) (nargv : List CString) :
    permute_args panonopt_start panonopt_end opt_end nargv
      = (permute_args_swaps panonopt_start panonopt_end opt_end).bind
          (fun l => apply_swaps l nargv) := by
  unfold permute_args permute_args_swaps
  simp only []
  cases gcd (panonopt_end - panonopt_start) (opt_end - panonopt_end) with
  | none => rfl
  | some ncycle =>
    simp only []
    split_ifs
    · rfl
    · simp only [Option.some_bind, permute_cycles_run]
/-- The call `gcd(0, b)` with `b` not 0 returns `b` after the single modulo `0 % b`. -/
theorem gcd_zero_left (b : Int) (hb : b ≠ 0) : gcd 0 b = some b := by
  unfold gcd
  rw [if_neg hb, Int.zero_tmod]
  simp [gcd_loop]

/-- Writing an element back to its own slot changes nothing. -/
theorem set_getElem_same (l : List CString) (i : Nat) (h : i < l.length) :
    l.set i l[i] = l := by
  apply List.ext_getElem?
  intro k
  rw [List.getElem?_set]
  by_cases hk : i = k
  · subst hk
    simp [h]
  · simp [hk]

/-- A swap of a slot within bounds with itself leaves the vector as it is. -/
theorem swap_args_self (nargv : List CString) (p : Int) (h0 : 0 ≤ p)
    (h1 : p < (nargv.length : Int)) : swap_args nargv p p = some nargv := by
  have hlt : p.toNat < nargv.length := by omega
  have hget : argv_at nargv p = some nargv[p.toNat] := by
    unfold argv_at
    rw [if_pos h0, List.getElem?_eq_getElem hlt]
  simp only [swap_args, hget, set_getElem_same nargv p.toNat hlt]

/-- A list of self-swaps within bounds leaves the vector as it is. -/
theorem apply_swaps_self (nargv : List CString) (l : List (Int × Int))
    (h : ∀ p ∈ l, p.1 = p.2 ∧ 0 ≤ p.1 ∧ p.1 < (nargv.length : Int)) :
    apply_swaps l nargv = some nargv := by
  induction l with
  | nil => rfl
  | cons p l ih =>
    obtain ⟨h1, h2, h3⟩ := h p (List.mem_cons_self _ _)
    simp only [apply_swaps, ← h1, swap_args_self nargv p.1 h2 h3]
    exact ih (fun q hq => h q (List.mem_cons_of_mem _ hq))

/-- With an empty first block and `cyclelen = 1`, every swap of the outer loop from the cycle
`i` on is a self-swap at an index in `[panonopt_end + i, panonopt_end + i + k)`. -/
theorem permute_cycles_swaps_self (m n : Int) (k : Nat) (i : Int) (hi : 0 ≤ i) :
    ∀ p ∈ permute_cycles_swaps m 0 n 1 k i,
      p.1 = p.2 ∧ m + i ≤ p.1 ∧ p.1 < m + i + (k : Int) := by
  induction k generalizing i with
  | zero => intro p hp; simp [permute_cycles_swaps] at hp
  | succ k ih =>
    intro p hp
    have hcyc : permute_cycle_swaps m 0 n (m + i) (1 : Int).toNat (m + i)
        = [(m + i, m + i)] := by
      have h1 : (1 : Int).toNat = 0 + 1 := rfl
      rw [h1]
      simp only [permute_cycle_swaps]
      rw [if_pos (by omega)]
      simp
    simp only [permute_cycles_swaps, hcyc, List.singleton_append, List.mem_cons] at hp
    rcases hp with rfl | hp
    · refine ⟨rfl, le_refl _, ?_⟩
      push_cast
      omega
    · obtain ⟨h1, h2, h3⟩ := ih (i + 1) (by omega) p hp
      refine ⟨h1, by omega, ?_⟩
      push_cast
      omega

/-- C21, amended: for indices `0 ≤ start = mid < end ≤ length` (an empty first block),
`permute_args` evaluates `gcd` with the divisor `end - mid`, which is not 0, and `gcd`
returns it; every swap made is a self-swap at an index in `[start, end)`; and the vector
is returned unchanged. -/
theorem permute_args_empty_first_block (nargv : List CString) (panonopt_start opt_end : Int)
    (h0 : 0 ≤ panonopt_start) (h1 : panonopt_start < opt_end)
    (h2 : opt_end ≤ (nargv.length : Int)) :
    gcd (panonopt_start - panonopt_start) (opt_end - panonopt_start)
        = some (opt_end - panonopt_start)
      ∧ opt_end - panonopt_start ≠ 0
      ∧ permute_args panonopt_start panonopt_start opt_end nargv = some nargv
      ∧ ∃ l, permute_args_swaps panonopt_start panonopt_start opt_end = some l
          ∧ ∀ p ∈ l, p.1 = p.2 ∧ panonopt_start ≤ p.1 ∧ p.1 < opt_end := by
  have hn : opt_end - panonopt_start ≠ 0 := by omega
  have hg : gcd (panonopt_start - panonopt_start) (opt_end - panonopt_start)
      = some (opt_end - panonopt_start) := by
    rw [sub_self]; exact gcd_zero_left _ hn
  have hl : permute_args_swaps panonopt_start panonopt_start opt_end
      = some (permute_cycles_swaps panonopt_start 0 (opt_end - panonopt_start) 1
          (opt_end - panonopt_start).toNat 0) := by
    unfold permute_args_swaps
    have hg0 : gcd 0 (opt_end - panonopt_start) = some (opt_end - panonopt_start) :=
      gcd_zero_left _ hn
    simp only [sub_self, hg0, hn, if_false, Int.tdiv_self hn]
  have hprop : ∀ p ∈ permute_cycles_swaps panonopt_start 0 (opt_end - panonopt_start) 1
      (opt_end - panonopt_start).toNat 0,
      p.1 = p.2 ∧ panonopt_start ≤ p.1 ∧ p.1 < opt_end := by
    intro p hp
    obtain ⟨k1, k2, k3⟩ := permute_cycles_swaps_self panonopt_start (opt_end - panonopt_start)
      (opt_end - panonopt_start).toNat 0 (le_refl 0) p hp
    refine ⟨k1, by omega, ?_⟩
    have : (((opt_end - panonopt_start).toNat : Nat) : Int) = opt_end - panonopt_start := by
      omega
    omega
  refine ⟨hg, hn, ?_, _, hl, hprop⟩
  rw [permute_args_run, hl, Option.some_bind]
  exact apply_swaps_self nargv _ (fun p hp => by
    obtain ⟨k1, k2, k3⟩ := hprop p hp
    exact ⟨k1, by omega, by omega⟩)

/-- C21, witness: the span `[1,3)` with an empty first block in a vector of four elements;
the swaps are `(1,1)` and `(2,2)`. -/
theorem permute_args_empty_first_block_witness :
    permute_args 1 1 3 (argv ["p", "-a", "-b", "f"]) = some (argv ["p", "-a", "-b", "f"])
      ∧ permute_args_swaps 1 1 3 = some [(1, 1), (2, 2)] :=
  ⟨(permute_args_empty_first_block (argv ["p", "-a", "-b", "f"]) 1 3 (by decide) (by decide)
      (by decide)).2.2.1, by decide⟩

/-- C21, counterexample: with `mid = end` (indices 1, 3, 3, and 2, 2, 2 with both blocks
empty) the divisor `nopts = end - mid` passed to `gcd` is 0, so `gcd` and with it
`permute_args` are undefined. -/
theorem permute_args_empty_block_counterexample :
    (3 : Int) - 3 = 0
      ∧ gcd (3 - 1) (3 - 3) = none
      ∧ permute_args 1 3 3 (argv ["p", "f1", "f2", "-a"]) = none
      ∧ gcd (2 - 2) (2 - 2) = none
      ∧ permute_args 2 2 2 (argv ["p", "f1", "f2", "-a"]) = none := by
  decide

end Getopt
